import Mathlib

/-!
Verification development for the OBD-II live panel (`rpm_panel3.py`).

The per-cycle body of `read_obd_loop` is decomposed into three pure
transition functions, one per independent piece of state it touches:
`schedCycle` (tiered polling decision), `fuelCycle` (fuel-flow estimation
and trapezoidal integration), and `csv_write` (CSV logging with a frozen
header).  The watchdog thread body is `watchdogCycle`.  Real numbers are
modelled by `ℚ` (the source uses IEEE doubles; the claims are about the
algorithm, with floating point idealised as exact arithmetic).  Strings
are kept as strings; the only string formatting in scope, the rendering
of instantaneous flows into the live table, is abstracted by the `Disp`
type whose `val` constructor carries the unrounded number.
-/

/-- `AFR = 14.7`, the stoichiometric air–fuel ratio constant from
`calculate_fuel_usage_maf`. -/
def AFR : ℚ := 147 / 10

/-- `FUEL_DENSITY = 0.745` g/ml from `calculate_fuel_usage_maf`. -/
def FUEL_DENSITY : ℚ := 745 / 1000

/-- `MAX_TRAPZ_DT_S = 5.0`, the gap tolerance for trapezoidal integration. -/
def MAX_TRAPZ_DT_S : ℚ := 5

/-- Decimal digit test, `\d` of the regex `RX_NUM`. -/
def isDigitCh (c : Char) : Bool := '0' ≤ c && c ≤ '9'

/-- Greedy match of the regex body `\d*\.?\d+` anchored at the head of the
list, returning the matched characters, exactly as Python's backtracking
engine resolves it: all leading digits, then a dot only when at least one
digit follows it (otherwise the dot is given back), and failure when no
digit is available at all. -/
def matchBody (l : List Char) : Option (List Char) :=
  match l.dropWhile isDigitCh with
  | c :: rest =>
    if c = '.' then
      if rest.takeWhile isDigitCh = [] then
        (if l.takeWhile isDigitCh = [] then none else some (l.takeWhile isDigitCh))
      else some (l.takeWhile isDigitCh ++ '.' :: rest.takeWhile isDigitCh)
    else if l.takeWhile isDigitCh = [] then none else some (l.takeWhile isDigitCh)
  | [] => if l.takeWhile isDigitCh = [] then none else some (l.takeWhile isDigitCh)

/-- Greedy match of `RX_NUM = ([-+]?\d*\.?\d+)` anchored at the head of
the list.  When the body fails after a sign, backtracking the optional
sign cannot help (the body cannot start with a sign character), so the
whole match fails, as in Python. -/
def matchNumAt (l : List Char) : Option (List Char) :=
  match l with
  | c :: r =>
    if c = '+' then (matchBody r).map (fun m => '+' :: m)
    else if c = '-' then (matchBody r).map (fun m => '-' :: m)
    else matchBody l
  | [] => none

/-- `RX_NUM.search`: leftmost match of the number regex in the string. -/
def rxSearch : List Char → Option (List Char)
  | [] => none
  | c :: cs =>
    match matchNumAt (c :: cs) with
    | some m => some m
    | none => rxSearch cs

/-- Value of a digit string read in base 10. -/
def digitsVal : List Char → Nat :=
  List.foldl (fun a c => 10 * a + (c.toNat - 48)) 0

/-- Numeric value of an unsigned match `\d*\.?\d+`. -/
def floatValAux (r : List Char) : ℚ :=
  let ip := r.takeWhile isDigitCh
  match r.drop ip.length with
  | '.' :: fr => (digitsVal ip : ℚ) + (digitsVal fr : ℚ) / (10 : ℚ) ^ fr.length
  | _ => (digitsVal ip : ℚ)

/-- `float(...)` applied to a match of `RX_NUM` (such a literal is always
a valid float, so the `ValueError` branch of the source is unreachable). -/
def floatVal : List Char → ℚ
  | '-' :: r => - floatValAux r
  | '+' :: r => floatValAux r
  | r => floatValAux r

/-- `parse_first_float`: extract the first float from `value` or return
`default`. -/
def parse_first_float (value : String) (default : ℚ) : ℚ :=
  if value = "" || value = "No data" || value = "..." then default
  else
    match rxSearch value.data with
    | some m => floatVal m
    | none => default

/-- `calculate_fuel_usage_maf`: convert MAF [g/s] to fuel usage [ml/min]
assuming stoichiometric AFR. -/
def calculate_fuel_usage_maf (maf_g_s : ℚ) : ℚ :=
  let fuel_g_s := maf_g_s / AFR
  let fuel_ml_s := fuel_g_s / FUEL_DENSITY
  fuel_ml_s * 60

/-- `calculate_real_fuel_usage`: trim-corrected fuel usage [ml/min]. -/
def calculate_real_fuel_usage (maf_g_s stft_pp ltft_pp : ℚ) : ℚ :=
  let base_ml_min := calculate_fuel_usage_maf maf_g_s
  let factor := (1 + ltft_pp / 100) * (1 + stft_pp / 100)
  base_ml_min * factor

/-- The value a flow field of `live_data` can hold: a formatted number
(`val`, the rendering of `x` as a decimal string abstracted away), the
placeholder `"-"` (`noData`), or the markers `"MAF error"` / `"calc
error"` written by the exception handler. -/
inductive Disp where
  | val (q : ℚ)
  | noData
  | mafError
  | calcError
deriving DecidableEq

/-- The mutable state touched by the fuel section of `read_obd_loop`:
the two running totals, the two previous-sample baselines
(`_last_base_ml_min`, `_last_real_ml_min`), the loop timestamp
`_last_loop_ts`, and the two instantaneous-flow fields of `live_data`. -/
structure FuelState where
  fuel_used_total_ml : ℚ
  real_fuel_used_total_ml : ℚ
  last_base_ml_min : Option ℚ
  last_real_ml_min : Option ℚ
  last_loop_ts : ℚ
  fuel_usage_disp : Disp
  real_fuel_usage_disp : Disp
deriving DecidableEq

/-- One cycle's inputs to the fuel section: the wall-clock time
`time.time()` at the top of the loop, the `live_data` strings for `MAF`,
`SHORT_FUEL_TRIM_1` and `LONG_FUEL_TRIM_1`, and whether the guarded
computation raises (`raiseE` embeds the `try/except` branch; for float
inputs the arithmetic itself never raises in Python). -/
structure CycleIn where
  now : ℚ
  maf_str : String
  stft_str : String
  ltft_str : String
  raiseE : Bool
deriving DecidableEq

/-- State at process start: totals 0, no baselines, `_last_loop_ts = t0`,
and the pre-filled placeholders for the flow fields. -/
def initFuelState (t0 : ℚ) : FuelState :=
  { fuel_used_total_ml := 0
    real_fuel_used_total_ml := 0
    last_base_ml_min := none
    last_real_ml_min := none
    last_loop_ts := t0
    fuel_usage_disp := Disp.noData
    real_fuel_usage_disp := Disp.noData }

/-- The guarded trapezoidal increment of `read_obd_loop`: the two totals
are incremented by `0.5 * (last + current) * (dt_s / 60)` exactly when
both previous baselines exist and `0 < dt_s ≤ MAX_TRAPZ_DT_S`; otherwise
they are returned unchanged. -/
def trapzUpdate (st : FuelState) (dt_s base_ml_min real_ml_min : ℚ) : ℚ × ℚ :=
  match st.last_base_ml_min, st.last_real_ml_min with
  | some lb, some lr =>
    if 0 < dt_s ∧ dt_s ≤ MAX_TRAPZ_DT_S then
      (st.fuel_used_total_ml + 1/2 * (lb + base_ml_min) * (dt_s / 60),
       st.real_fuel_used_total_ml + 1/2 * (lr + real_ml_min) * (dt_s / 60))
    else (st.fuel_used_total_ml, st.real_fuel_used_total_ml)
  | _, _ => (st.fuel_used_total_ml, st.real_fuel_used_total_ml)

/-- The fuel section of one iteration of `read_obd_loop`: compute
`dt_s = max(0.0, now - _last_loop_ts)`, parse the three inputs, and
follow the source's branch structure (valid MAF with/without exception,
trapezoidal increment via `trapzUpdate`, baselines replaced by the
current flows; invalid MAF clears the baselines and writes the `"-"`
placeholders). -/
def fuelCycle (st : FuelState) (i : CycleIn) : FuelState :=
  let dt_s := max 0 (i.now - st.last_loop_ts)
  let maf_g_s := parse_first_float i.maf_str 0
  let stft_pp := parse_first_float i.stft_str 0
  let ltft_pp := parse_first_float i.ltft_str 0
  if 0 < maf_g_s then
    if i.raiseE then
      { st with
          fuel_usage_disp := Disp.mafError
          real_fuel_usage_disp := Disp.calcError
          last_base_ml_min := none
          last_real_ml_min := none
          last_loop_ts := i.now }
    else
      let base_ml_min := calculate_fuel_usage_maf maf_g_s
      let real_ml_min := calculate_real_fuel_usage maf_g_s stft_pp ltft_pp
      let totals := trapzUpdate st dt_s base_ml_min real_ml_min
      { fuel_used_total_ml := totals.1
        real_fuel_used_total_ml := totals.2
        last_base_ml_min := some base_ml_min
        last_real_ml_min := some real_ml_min
        last_loop_ts := i.now
        fuel_usage_disp := Disp.val base_ml_min
        real_fuel_usage_disp := Disp.val real_ml_min }
  else
    { st with
        fuel_usage_disp := Disp.noData
        real_fuel_usage_disp := Disp.noData
        last_base_ml_min := none
        last_real_ml_min := none
        last_loop_ts := i.now }

/-- Iterate `fuelCycle` over a list of cycle inputs. -/
def runFuel (st : FuelState) : List CycleIn → FuelState
  | [] => st
  | i :: rest => runFuel (fuelCycle st i) rest

/-- Trapezoidal-rule sum over a sample sequence: previous flow `f0` at
time `t0` followed by samples `(t, f)`, each trapezoid contributing
`0.5 * (f_prev + f) * ((t - t_prev) / 60)`. -/
def trapzSum (f0 t0 : ℚ) : List (ℚ × ℚ) → ℚ
  | [] => 0
  | (t, f) :: rest => 1/2 * (f0 + f) * ((t - t0) / 60) + trapzSum f t rest

/-- A run of cycles each carrying a valid flow sample (positive parsed
MAF, no exception) whose elapsed time from the previous cycle lies in
`(0, MAX_TRAPZ_DT_S]`; `t0` is the time of the previous cycle. -/
def ValidWarmRun (t0 : ℚ) : List CycleIn → Prop
  | [] => True
  | i :: rest =>
    0 < parse_first_float i.maf_str 0 ∧ i.raiseE = false ∧
      0 < i.now - t0 ∧ i.now - t0 ≤ MAX_TRAPZ_DT_S ∧ ValidWarmRun i.now rest

/-- The base flow computed from a cycle's parsed MAF string. -/
def cycleBaseFlow (i : CycleIn) : ℚ :=
  calculate_fuel_usage_maf (parse_first_float i.maf_str 0)

/-- The trim-corrected flow computed from a cycle's parsed strings. -/
def cycleRealFlow (i : CycleIn) : ℚ :=
  calculate_real_fuel_usage (parse_first_float i.maf_str 0)
    (parse_first_float i.stft_str 0) (parse_first_float i.ltft_str 0)

/-!  Step lemmas for the fuel section. -/

theorem trapzUpdate_warm (st : FuelState) (dt_s base_ml_min real_ml_min lb lr : ℚ)
    (hb : st.last_base_ml_min = some lb) (hr : st.last_real_ml_min = some lr)
    (h1 : 0 < dt_s) (h2 : dt_s ≤ MAX_TRAPZ_DT_S) :
    trapzUpdate st dt_s base_ml_min real_ml_min
      = (st.fuel_used_total_ml + 1/2 * (lb + base_ml_min) * (dt_s / 60),
         st.real_fuel_used_total_ml + 1/2 * (lr + real_ml_min) * (dt_s / 60)) := by
  unfold trapzUpdate
  rw [hb, hr]
  exact if_pos ⟨h1, h2⟩

theorem trapzUpdate_cold (st : FuelState) (dt_s base_ml_min real_ml_min : ℚ)
    (h : st.last_base_ml_min = none ∨ st.last_real_ml_min = none) :
    trapzUpdate st dt_s base_ml_min real_ml_min
      = (st.fuel_used_total_ml, st.real_fuel_used_total_ml) := by
  unfold trapzUpdate
  rcases h with h | h
  · rw [h]
  · rw [h]
    rcases st.last_base_ml_min with _ | lb <;> rfl

theorem trapzUpdate_gap (st : FuelState) (dt_s base_ml_min real_ml_min : ℚ)
    (h : ¬(0 < dt_s ∧ dt_s ≤ MAX_TRAPZ_DT_S)) :
    trapzUpdate st dt_s base_ml_min real_ml_min
      = (st.fuel_used_total_ml, st.real_fuel_used_total_ml) := by
  unfold trapzUpdate
  rcases hb : st.last_base_ml_min with _ | lb <;> rcases hr : st.last_real_ml_min with _ | lr <;>
    first
      | rfl
      | exact if_neg h

theorem fuelCycle_valid_eq (st : FuelState) (i : CycleIn)
    (hmaf : 0 < parse_first_float i.maf_str 0) (hre : i.raiseE = false) :
    fuelCycle st i =
      { fuel_used_total_ml :=
          (trapzUpdate st (max 0 (i.now - st.last_loop_ts)) (cycleBaseFlow i) (cycleRealFlow i)).1
        real_fuel_used_total_ml :=
          (trapzUpdate st (max 0 (i.now - st.last_loop_ts)) (cycleBaseFlow i) (cycleRealFlow i)).2
        last_base_ml_min := some (cycleBaseFlow i)
        last_real_ml_min := some (cycleRealFlow i)
        last_loop_ts := i.now
        fuel_usage_disp := Disp.val (cycleBaseFlow i)
        real_fuel_usage_disp := Disp.val (cycleRealFlow i) } := by
  unfold fuelCycle cycleBaseFlow cycleRealFlow
  rw [if_pos hmaf, hre]
  simp only [Bool.false_eq_true, if_false]

theorem fuelCycle_raise_eq (st : FuelState) (i : CycleIn)
    (hmaf : 0 < parse_first_float i.maf_str 0) (hre : i.raiseE = true) :
    fuelCycle st i =
      { st with
          fuel_usage_disp := Disp.mafError
          real_fuel_usage_disp := Disp.calcError
          last_base_ml_min := none
          last_real_ml_min := none
          last_loop_ts := i.now } := by
  unfold fuelCycle
  rw [if_pos hmaf, hre]
  simp only [if_true]

theorem fuelCycle_invalid_eq (st : FuelState) (i : CycleIn)
    (hmaf : parse_first_float i.maf_str 0 ≤ 0) :
    fuelCycle st i =
      { st with
          fuel_usage_disp := Disp.noData
          real_fuel_usage_disp := Disp.noData
          last_base_ml_min := none
          last_real_ml_min := none
          last_loop_ts := i.now } := by
  unfold fuelCycle
  rw [if_neg (not_lt.mpr hmaf)]

/-- A cycle carrying a valid sample in Warm state with `dt` in tolerance:
both totals gain one trapezoid and the baselines become the current
flows. -/
theorem fuelCycle_warm_step (st : FuelState) (i : CycleIn) (lb lr : ℚ)
    (hb : st.last_base_ml_min = some lb) (hr : st.last_real_ml_min = some lr)
    (hmaf : 0 < parse_first_float i.maf_str 0) (hre : i.raiseE = false)
    (hdt0 : 0 < i.now - st.last_loop_ts) (hdt1 : i.now - st.last_loop_ts ≤ MAX_TRAPZ_DT_S) :
    fuelCycle st i =
      { fuel_used_total_ml :=
          st.fuel_used_total_ml
            + 1/2 * (lb + cycleBaseFlow i) * ((i.now - st.last_loop_ts) / 60)
        real_fuel_used_total_ml :=
          st.real_fuel_used_total_ml
            + 1/2 * (lr + cycleRealFlow i) * ((i.now - st.last_loop_ts) / 60)
        last_base_ml_min := some (cycleBaseFlow i)
        last_real_ml_min := some (cycleRealFlow i)
        last_loop_ts := i.now
        fuel_usage_disp := Disp.val (cycleBaseFlow i)
        real_fuel_usage_disp := Disp.val (cycleRealFlow i) } := by
  rw [fuelCycle_valid_eq st i hmaf hre]
  rw [max_eq_right hdt0.le]
  rw [trapzUpdate_warm st _ _ _ lb lr hb hr hdt0 hdt1]

/-- A cycle carrying a valid sample with no usable baseline: totals are
unchanged, only the baselines are (re)recorded. -/
theorem fuelCycle_cold_step (st : FuelState) (i : CycleIn)
    (hcold : st.last_base_ml_min = none ∨ st.last_real_ml_min = none)
    (hmaf : 0 < parse_first_float i.maf_str 0) (hre : i.raiseE = false) :
    fuelCycle st i =
      { fuel_used_total_ml := st.fuel_used_total_ml
        real_fuel_used_total_ml := st.real_fuel_used_total_ml
        last_base_ml_min := some (cycleBaseFlow i)
        last_real_ml_min := some (cycleRealFlow i)
        last_loop_ts := i.now
        fuel_usage_disp := Disp.val (cycleBaseFlow i)
        real_fuel_usage_disp := Disp.val (cycleRealFlow i) } := by
  rw [fuelCycle_valid_eq st i hmaf hre]
  rw [trapzUpdate_cold st _ _ _ hcold]

/-- A cycle whose elapsed time is out of tolerance (`dt ≤ 0` or
`dt > MAX_TRAPZ_DT_S`) never changes either total, whatever the sample
or the exception flag. -/
theorem fuelCycle_gap_totals (st : FuelState) (i : CycleIn)
    (hgap : i.now - st.last_loop_ts ≤ 0 ∨ MAX_TRAPZ_DT_S < i.now - st.last_loop_ts) :
    (fuelCycle st i).fuel_used_total_ml = st.fuel_used_total_ml
      ∧ (fuelCycle st i).real_fuel_used_total_ml = st.real_fuel_used_total_ml := by
  have hdt : ¬(0 < max 0 (i.now - st.last_loop_ts)
      ∧ max 0 (i.now - st.last_loop_ts) ≤ MAX_TRAPZ_DT_S) := by
    rcases hgap with h | h
    · rw [max_eq_left h]
      exact fun hc => lt_irrefl 0 hc.1
    · rw [max_eq_right (le_of_lt (lt_trans (by norm_num [MAX_TRAPZ_DT_S]) h))]
      exact fun hc => absurd hc.2 (not_le.mpr h)
  by_cases hmaf : 0 < parse_first_float i.maf_str 0
  · cases hre : i.raiseE
    · rw [fuelCycle_valid_eq st i hmaf hre]
      rw [trapzUpdate_gap st _ _ _ hdt]
      exact ⟨rfl, rfl⟩
    · rw [fuelCycle_raise_eq st i hmaf hre]
      exact ⟨rfl, rfl⟩
  · rw [fuelCycle_invalid_eq st i (not_lt.mp hmaf)]
    exact ⟨rfl, rfl⟩

/-!  Evaluation of `parse_first_float` on the concrete strings used in
the witnesses: the string machinery reduces definitionally, the final
rational arithmetic is discharged by `norm_num`. -/

theorem parse_two_eval : parse_first_float "2.0" 0 = 2 := by
  have h : parse_first_float "2.0" 0 = ((2 : ℕ) : ℚ) + ((0 : ℕ) : ℚ) / 10 ^ 1 := rfl
  rw [h]
  norm_num

theorem parse_zero_dot_eval : parse_first_float "0.0" 0 = 0 := by
  have h : parse_first_float "0.0" 0 = ((0 : ℕ) : ℚ) + ((0 : ℕ) : ℚ) / 10 ^ 1 := rfl
  rw [h]
  norm_num

theorem parse_zero_eval : parse_first_float "0" 0 = 0 := by
  have h : parse_first_float "0" 0 = ((0 : ℕ) : ℚ) := rfl
  rw [h]
  norm_num

theorem parse_neg300_eval : parse_first_float "-300" 0 = -300 := by
  have h : parse_first_float "-300" 0 = -((300 : ℕ) : ℚ) := rfl
  rw [h]
  norm_num

/-!  Run-level lemmas. -/

theorem runFuel_cons (st : FuelState) (i : CycleIn) (rest : List CycleIn) :
    runFuel st (i :: rest) = runFuel (fuelCycle st i) rest := rfl

theorem runFuel_append (st : FuelState) (l : List CycleIn) (i : CycleIn) :
    runFuel st (l ++ [i]) = fuelCycle (runFuel st l) i := by
  induction l generalizing st with
  | nil => rfl
  | cons j rest ih => exact ih (fuelCycle st j)

/-- Over an uninterrupted run of valid in-tolerance cycles starting from
a Warm state, both totals grow by exactly the trapezoidal-rule sum of
the corresponding flow sequence. -/
theorem runFuel_trapz (ins : List CycleIn) : ∀ (st : FuelState) (lb lr : ℚ),
    st.last_base_ml_min = some lb → st.last_real_ml_min = some lr →
    ValidWarmRun st.last_loop_ts ins →
    (runFuel st ins).fuel_used_total_ml
        = st.fuel_used_total_ml
          + trapzSum lb st.last_loop_ts (ins.map fun i => (i.now, cycleBaseFlow i))
      ∧ (runFuel st ins).real_fuel_used_total_ml
        = st.real_fuel_used_total_ml
          + trapzSum lr st.last_loop_ts (ins.map fun i => (i.now, cycleRealFlow i)) := by
  induction ins with
  | nil =>
    intro st lb lr _ _ _
    constructor <;> simp [runFuel, trapzSum]
  | cons i rest ih =>
    intro st lb lr hb hr hv
    obtain ⟨hmaf, hre, hdt0, hdt1, hv'⟩ := hv
    have hstep := fuelCycle_warm_step st i lb lr hb hr hmaf hre hdt0 hdt1
    rw [runFuel_cons]
    obtain ⟨h2b, h2r⟩ := ih (fuelCycle st i) (cycleBaseFlow i) (cycleRealFlow i)
      (by rw [hstep]) (by rw [hstep]) (by rw [hstep]; exact hv')
    rw [h2b, h2r, hstep]
    simp only [List.map_cons, trapzSum]
    constructor <;> ring

/-!  Monotonicity invariants for claim C4. -/

/-- The base baseline, when present, is nonnegative. -/
def BaseInv (st : FuelState) : Prop :=
  ∀ b, st.last_base_ml_min = some b → 0 ≤ b

/-- The corrected baseline, when present, is nonnegative. -/
def RealInv (st : FuelState) : Prop :=
  ∀ r, st.last_real_ml_min = some r → 0 ≤ r

/-- Both parsed trim percentages of a cycle are at least −100. -/
def GoodTrims (i : CycleIn) : Prop :=
  -100 ≤ parse_first_float i.stft_str 0 ∧ -100 ≤ parse_first_float i.ltft_str 0

theorem calculate_fuel_usage_maf_pos (maf : ℚ) (h : 0 < maf) :
    0 < calculate_fuel_usage_maf maf := by
  unfold calculate_fuel_usage_maf AFR FUEL_DENSITY
  positivity

theorem cycleBaseFlow_pos (i : CycleIn) (h : 0 < parse_first_float i.maf_str 0) :
    0 < cycleBaseFlow i :=
  calculate_fuel_usage_maf_pos _ h

theorem calculate_real_fuel_usage_nonneg (maf stft ltft : ℚ)
    (hm : 0 < maf) (hs : -100 ≤ stft) (hl : -100 ≤ ltft) :
    0 ≤ calculate_real_fuel_usage maf stft ltft := by
  unfold calculate_real_fuel_usage
  have h1 : (0 : ℚ) ≤ 1 + ltft / 100 := by linarith
  have h2 : (0 : ℚ) ≤ 1 + stft / 100 := by linarith
  have h3 := (calculate_fuel_usage_maf_pos maf hm).le
  exact mul_nonneg h3 (mul_nonneg h1 h2)

theorem trapzUpdate_fst_mono (st : FuelState) (dt_s base_ml_min real_ml_min : ℚ)
    (hinv : BaseInv st) (hbase : 0 ≤ base_ml_min) :
    st.fuel_used_total_ml ≤ (trapzUpdate st dt_s base_ml_min real_ml_min).1 := by
  by_cases hdt : 0 < dt_s ∧ dt_s ≤ MAX_TRAPZ_DT_S
  · rcases hb : st.last_base_ml_min with _ | lb
    · rw [trapzUpdate_cold st _ _ _ (Or.inl hb)]
    · rcases hr : st.last_real_ml_min with _ | lr
      · rw [trapzUpdate_cold st _ _ _ (Or.inr hr)]
      · rw [trapzUpdate_warm st _ _ _ lb lr hb hr hdt.1 hdt.2]
        have hlb := hinv lb hb
        have hsum : (0 : ℚ) ≤ lb + base_ml_min := by linarith
        have h60 : (0 : ℚ) ≤ dt_s / 60 := div_nonneg hdt.1.le (by norm_num)
        have hinc : (0 : ℚ) ≤ 1/2 * (lb + base_ml_min) * (dt_s / 60) :=
          mul_nonneg (mul_nonneg (by norm_num) hsum) h60
        show st.fuel_used_total_ml
          ≤ st.fuel_used_total_ml + 1/2 * (lb + base_ml_min) * (dt_s / 60)
        linarith
  · rw [trapzUpdate_gap st _ _ _ hdt]

theorem trapzUpdate_snd_mono (st : FuelState) (dt_s base_ml_min real_ml_min : ℚ)
    (hinv : RealInv st) (hreal : 0 ≤ real_ml_min) :
    st.real_fuel_used_total_ml ≤ (trapzUpdate st dt_s base_ml_min real_ml_min).2 := by
  by_cases hdt : 0 < dt_s ∧ dt_s ≤ MAX_TRAPZ_DT_S
  · rcases hb : st.last_base_ml_min with _ | lb
    · rw [trapzUpdate_cold st _ _ _ (Or.inl hb)]
    · rcases hr : st.last_real_ml_min with _ | lr
      · rw [trapzUpdate_cold st _ _ _ (Or.inr hr)]
      · rw [trapzUpdate_warm st _ _ _ lb lr hb hr hdt.1 hdt.2]
        have hlr := hinv lr hr
        have hsum : (0 : ℚ) ≤ lr + real_ml_min := by linarith
        have h60 : (0 : ℚ) ≤ dt_s / 60 := div_nonneg hdt.1.le (by norm_num)
        have hinc : (0 : ℚ) ≤ 1/2 * (lr + real_ml_min) * (dt_s / 60) :=
          mul_nonneg (mul_nonneg (by norm_num) hsum) h60
        show st.real_fuel_used_total_ml
          ≤ st.real_fuel_used_total_ml + 1/2 * (lr + real_ml_min) * (dt_s / 60)
        linarith
  · rw [trapzUpdate_gap st _ _ _ hdt]

theorem gap_not_sane (d : ℚ) (h : d ≤ 0 ∨ MAX_TRAPZ_DT_S < d) :
    ¬(0 < max 0 d ∧ max 0 d ≤ MAX_TRAPZ_DT_S) := by
  rcases h with h | h
  · rw [max_eq_left h]
    exact fun hc => lt_irrefl 0 hc.1
  · rw [max_eq_right (le_of_lt (lt_trans (by norm_num [MAX_TRAPZ_DT_S]) h))]
    exact fun hc => absurd hc.2 (not_le.mpr h)

theorem cycleRealFlow_nonneg (i : CycleIn)
    (hm : 0 < parse_first_float i.maf_str 0) (ht : GoodTrims i) :
    0 ≤ cycleRealFlow i :=
  calculate_real_fuel_usage_nonneg _ _ _ hm ht.1 ht.2

theorem fuelCycle_base_mono (st : FuelState) (i : CycleIn) (hinv : BaseInv st) :
    st.fuel_used_total_ml ≤ (fuelCycle st i).fuel_used_total_ml
      ∧ BaseInv (fuelCycle st i) := by
  by_cases hmaf : 0 < parse_first_float i.maf_str 0
  · cases hre : i.raiseE
    · rw [fuelCycle_valid_eq st i hmaf hre]
      refine ⟨trapzUpdate_fst_mono st _ _ _ hinv (cycleBaseFlow_pos i hmaf).le, ?_⟩
      intro b hb
      have h := Option.some.inj (hb : some (cycleBaseFlow i) = some b)
      rw [← h]
      exact (cycleBaseFlow_pos i hmaf).le
    · rw [fuelCycle_raise_eq st i hmaf hre]
      exact ⟨le_refl _, fun b hb => Option.noConfusion (hb : (none : Option ℚ) = some b)⟩
  · rw [fuelCycle_invalid_eq st i (not_lt.mp hmaf)]
    exact ⟨le_refl _, fun b hb => Option.noConfusion (hb : (none : Option ℚ) = some b)⟩

theorem fuelCycle_real_mono (st : FuelState) (i : CycleIn)
    (hinv : RealInv st) (ht : GoodTrims i) :
    st.real_fuel_used_total_ml ≤ (fuelCycle st i).real_fuel_used_total_ml
      ∧ RealInv (fuelCycle st i) := by
  by_cases hmaf : 0 < parse_first_float i.maf_str 0
  · cases hre : i.raiseE
    · rw [fuelCycle_valid_eq st i hmaf hre]
      refine ⟨trapzUpdate_snd_mono st _ _ _ hinv (cycleRealFlow_nonneg i hmaf ht), ?_⟩
      intro r hr
      have h := Option.some.inj (hr : some (cycleRealFlow i) = some r)
      rw [← h]
      exact cycleRealFlow_nonneg i hmaf ht
    · rw [fuelCycle_raise_eq st i hmaf hre]
      exact ⟨le_refl _, fun r hr => Option.noConfusion (hr : (none : Option ℚ) = some r)⟩
  · rw [fuelCycle_invalid_eq st i (not_lt.mp hmaf)]
    exact ⟨le_refl _, fun r hr => Option.noConfusion (hr : (none : Option ℚ) = some r)⟩

theorem runFuel_base_mono (ins : List CycleIn) : ∀ st : FuelState, BaseInv st →
    st.fuel_used_total_ml ≤ (runFuel st ins).fuel_used_total_ml
      ∧ BaseInv (runFuel st ins) := by
  induction ins with
  | nil => exact fun st h => ⟨le_refl _, h⟩
  | cons i rest ih =>
    intro st h
    obtain ⟨h1, h2⟩ := fuelCycle_base_mono st i h
    obtain ⟨h3, h4⟩ := ih (fuelCycle st i) h2
    exact ⟨le_trans h1 h3, h4⟩

theorem runFuel_real_mono (ins : List CycleIn) : ∀ st : FuelState, RealInv st →
    (∀ i ∈ ins, GoodTrims i) →
    st.real_fuel_used_total_ml ≤ (runFuel st ins).real_fuel_used_total_ml
      ∧ RealInv (runFuel st ins) := by
  induction ins with
  | nil => exact fun st h _ => ⟨le_refl _, h⟩
  | cons i rest ih =>
    intro st h hg
    obtain ⟨h1, h2⟩ := fuelCycle_real_mono st i h (hg i (List.mem_cons_self i rest))
    obtain ⟨h3, h4⟩ := ih (fuelCycle st i) h2
      (fun j hj => hg j (List.mem_cons_of_mem i hj))
    exact ⟨le_trans h1 h3, h4⟩

/-!  Claims C1 – C4. -/

/-- C1: in Warm state (both baselines held), a cycle whose MAF string
parses to a positive value and whose elapsed time `dt` since the previous
cycle satisfies `0 < dt ≤ MAX_TRAPZ_DT_S` increments each total by
exactly `0.5 * (previous_flow + current_flow) * (dt / 60)` and replaces
the baselines with the current flows; consequently, over any uninterrupted
sequence of such cycles the totals grow by exactly the trapezoidal-rule
sum of the flow sequence. -/
theorem C1_warm_trapezoid :
    (∀ (st : FuelState) (i : CycleIn) (lb lr : ℚ),
        st.last_base_ml_min = some lb → st.last_real_ml_min = some lr →
        0 < parse_first_float i.maf_str 0 → i.raiseE = false →
        0 < i.now - st.last_loop_ts → i.now - st.last_loop_ts ≤ MAX_TRAPZ_DT_S →
        (fuelCycle st i).fuel_used_total_ml
            = st.fuel_used_total_ml
              + 1/2 * (lb + cycleBaseFlow i) * ((i.now - st.last_loop_ts) / 60)
          ∧ (fuelCycle st i).real_fuel_used_total_ml
            = st.real_fuel_used_total_ml
              + 1/2 * (lr + cycleRealFlow i) * ((i.now - st.last_loop_ts) / 60)
          ∧ (fuelCycle st i).last_base_ml_min = some (cycleBaseFlow i)
          ∧ (fuelCycle st i).last_real_ml_min = some (cycleRealFlow i))
    ∧ (∀ (ins : List CycleIn) (st : FuelState) (lb lr : ℚ),
        st.last_base_ml_min = some lb → st.last_real_ml_min = some lr →
        ValidWarmRun st.last_loop_ts ins →
        (runFuel st ins).fuel_used_total_ml
            = st.fuel_used_total_ml
              + trapzSum lb st.last_loop_ts (ins.map fun i => (i.now, cycleBaseFlow i))
          ∧ (runFuel st ins).real_fuel_used_total_ml
            = st.real_fuel_used_total_ml
              + trapzSum lr st.last_loop_ts (ins.map fun i => (i.now, cycleRealFlow i))) := by
  constructor
  · intro st i lb lr hb hr hmaf hre hdt0 hdt1
    rw [fuelCycle_warm_step st i lb lr hb hr hmaf hre hdt0 hdt1]
    exact ⟨rfl, rfl, rfl, rfl⟩
  · exact fun ins st lb lr hb hr hv => runFuel_trapz ins st lb lr hb hr hv

/-- A concrete Warm state for the C1 witness. -/
def wSt1 : FuelState :=
  { fuel_used_total_ml := 3
    real_fuel_used_total_ml := 4
    last_base_ml_min := some 10
    last_real_ml_min := some 10
    last_loop_ts := 0
    fuel_usage_disp := Disp.val 10
    real_fuel_usage_disp := Disp.val 10 }

/-- A concrete valid cycle input one second later. -/
def wIn1 : CycleIn := ⟨1, "2.0", "0.0", "0.0", false⟩

theorem C1_warm_trapezoid_witness :
    (fuelCycle wSt1 wIn1).fuel_used_total_ml
        = wSt1.fuel_used_total_ml
          + 1/2 * (10 + cycleBaseFlow wIn1) * ((wIn1.now - wSt1.last_loop_ts) / 60)
      ∧ (fuelCycle wSt1 wIn1).last_base_ml_min = some (cycleBaseFlow wIn1) := by
  have h := C1_warm_trapezoid.1 wSt1 wIn1 10 10 rfl rfl
    (by rw [show wIn1.maf_str = "2.0" from rfl, parse_two_eval]; norm_num)
    rfl
    (by show (0 : ℚ) < 1 - 0; norm_num)
    (by show (1 : ℚ) - 0 ≤ MAX_TRAPZ_DT_S; norm_num [MAX_TRAPZ_DT_S])
  exact ⟨h.1, h.2.2.1⟩

/-- C2: a cycle whose elapsed time is out of tolerance (`dt ≤ 0` or
`dt > MAX_TRAPZ_DT_S`) never changes either total; if its sample is
valid it still becomes the new baseline, so a following in-tolerance
valid cycle integrates exactly one trapezoid starting from the post-gap
sample. -/
theorem C2_gap_skips_integration :
    (∀ (st : FuelState) (i : CycleIn),
        (i.now - st.last_loop_ts ≤ 0 ∨ MAX_TRAPZ_DT_S < i.now - st.last_loop_ts) →
        (fuelCycle st i).fuel_used_total_ml = st.fuel_used_total_ml
          ∧ (fuelCycle st i).real_fuel_used_total_ml = st.real_fuel_used_total_ml)
    ∧ (∀ (st : FuelState) (i : CycleIn),
        0 < parse_first_float i.maf_str 0 → i.raiseE = false →
        (fuelCycle st i).last_base_ml_min = some (cycleBaseFlow i)
          ∧ (fuelCycle st i).last_real_ml_min = some (cycleRealFlow i))
    ∧ (∀ (st : FuelState) (i j : CycleIn),
        (i.now - st.last_loop_ts ≤ 0 ∨ MAX_TRAPZ_DT_S < i.now - st.last_loop_ts) →
        0 < parse_first_float i.maf_str 0 → i.raiseE = false →
        0 < parse_first_float j.maf_str 0 → j.raiseE = false →
        0 < j.now - i.now → j.now - i.now ≤ MAX_TRAPZ_DT_S →
        (fuelCycle (fuelCycle st i) j).fuel_used_total_ml
            = st.fuel_used_total_ml
              + 1/2 * (cycleBaseFlow i + cycleBaseFlow j) * ((j.now - i.now) / 60)
          ∧ (fuelCycle (fuelCycle st i) j).real_fuel_used_total_ml
            = st.real_fuel_used_total_ml
              + 1/2 * (cycleRealFlow i + cycleRealFlow j) * ((j.now - i.now) / 60)) := by
  refine ⟨?_, ?_, ?_⟩
  · exact fun st i hgap => fuelCycle_gap_totals st i hgap
  · intro st i hmaf hre
    rw [fuelCycle_valid_eq st i hmaf hre]
    exact ⟨rfl, rfl⟩
  · intro st i j hgap hmi hrei hmj hrej hdt0 hdt1
    rw [fuelCycle_valid_eq st i hmi hrei,
      trapzUpdate_gap st _ _ _ (gap_not_sane _ hgap)]
    rw [fuelCycle_warm_step _ j (cycleBaseFlow i) (cycleRealFlow i) rfl rfl hmj hrej
      hdt0 hdt1]
    exact ⟨rfl, rfl⟩

/-- A Warm state whose last cycle was at time 0, for the C2 witness. -/
def wSt2 : FuelState :=
  { fuel_used_total_ml := 7
    real_fuel_used_total_ml := 8
    last_base_ml_min := some 9
    last_real_ml_min := some 9
    last_loop_ts := 0
    fuel_usage_disp := Disp.val 9
    real_fuel_usage_disp := Disp.val 9 }

/-- A valid cycle input after a 10-second gap. -/
def wIn2 : CycleIn := ⟨10, "2.0", "0.0", "0.0", false⟩

/-- A valid cycle input one second after the gap cycle. -/
def wIn3 : CycleIn := ⟨11, "2.0", "0.0", "0.0", false⟩

theorem C2_gap_skips_integration_witness :
    (fuelCycle wSt2 wIn2).fuel_used_total_ml = wSt2.fuel_used_total_ml
      ∧ (fuelCycle (fuelCycle wSt2 wIn2) wIn3).fuel_used_total_ml
        = wSt2.fuel_used_total_ml
          + 1/2 * (cycleBaseFlow wIn2 + cycleBaseFlow wIn3) * ((wIn3.now - wIn2.now) / 60) := by
  have hmaf2 : 0 < parse_first_float wIn2.maf_str 0 := by
    rw [show wIn2.maf_str = "2.0" from rfl, parse_two_eval]; norm_num
  have hmaf3 : 0 < parse_first_float wIn3.maf_str 0 := by
    rw [show wIn3.maf_str = "2.0" from rfl, parse_two_eval]; norm_num
  have hgap : wIn2.now - wSt2.last_loop_ts ≤ 0
      ∨ MAX_TRAPZ_DT_S < wIn2.now - wSt2.last_loop_ts := by
    right; show MAX_TRAPZ_DT_S < 10 - 0; norm_num [MAX_TRAPZ_DT_S]
  constructor
  · exact (C2_gap_skips_integration.1 wSt2 wIn2 hgap).1
  · exact (C2_gap_skips_integration.2.2 wSt2 wIn2 wIn3 hgap hmaf2 rfl hmaf3 rfl
      (by show (0 : ℚ) < 11 - 10; norm_num)
      (by show (11 : ℚ) - 10 ≤ MAX_TRAPZ_DT_S; norm_num [MAX_TRAPZ_DT_S])).1

/-- C3: a cycle whose MAF parses to a non-positive value (absent values
parse to the default 0), or whose guarded computation raises, writes a
non-numeric marker into both instantaneous-flow fields and clears both
baselines; a following valid cycle starting from a cleared baseline
leaves both totals unchanged and only records the new baseline. -/
theorem C3_invalid_sample_clears_baseline (st : FuelState) (i : CycleIn) :
    (parse_first_float i.maf_str 0 ≤ 0 →
        (fuelCycle st i).fuel_usage_disp = Disp.noData
          ∧ (fuelCycle st i).real_fuel_usage_disp = Disp.noData
          ∧ (fuelCycle st i).last_base_ml_min = none
          ∧ (fuelCycle st i).last_real_ml_min = none)
    ∧ (0 < parse_first_float i.maf_str 0 → i.raiseE = true →
        (fuelCycle st i).fuel_usage_disp = Disp.mafError
          ∧ (fuelCycle st i).real_fuel_usage_disp = Disp.calcError
          ∧ (fuelCycle st i).last_base_ml_min = none
          ∧ (fuelCycle st i).last_real_ml_min = none)
    ∧ (∀ q : ℚ, Disp.noData ≠ Disp.val q ∧ Disp.mafError ≠ Disp.val q
          ∧ Disp.calcError ≠ Disp.val q)
    ∧ (∀ j : CycleIn, (fuelCycle st i).last_base_ml_min = none →
        0 < parse_first_float j.maf_str 0 → j.raiseE = false →
        (fuelCycle (fuelCycle st i) j).fuel_used_total_ml
            = (fuelCycle st i).fuel_used_total_ml
          ∧ (fuelCycle (fuelCycle st i) j).real_fuel_used_total_ml
            = (fuelCycle st i).real_fuel_used_total_ml
          ∧ (fuelCycle (fuelCycle st i) j).last_base_ml_min = some (cycleBaseFlow j)
          ∧ (fuelCycle (fuelCycle st i) j).last_real_ml_min = some (cycleRealFlow j)) := by
  refine ⟨?_, ?_, ?_, ?_⟩
  · intro hmaf
    rw [fuelCycle_invalid_eq st i hmaf]
    exact ⟨rfl, rfl, rfl, rfl⟩
  · intro hmaf hre
    rw [fuelCycle_raise_eq st i hmaf hre]
    exact ⟨rfl, rfl, rfl, rfl⟩
  · exact fun q => ⟨fun h => Disp.noConfusion h, fun h => Disp.noConfusion h,
      fun h => Disp.noConfusion h⟩
  · intro j hcold hmaf hre
    rw [fuelCycle_cold_step (fuelCycle st i) j (Or.inl hcold) hmaf hre]
    exact ⟨rfl, rfl, rfl, rfl⟩

/-- An invalid cycle input (MAF string parses to 0). -/
def wIn4 : CycleIn := ⟨1, "0.0", "0.0", "0.0", false⟩

/-- A valid cycle input following the invalid one. -/
def wIn5 : CycleIn := ⟨2, "2.0", "0.0", "0.0", false⟩

theorem C3_invalid_sample_clears_baseline_witness :
    (fuelCycle wSt1 wIn4).fuel_usage_disp = Disp.noData
      ∧ (fuelCycle wSt1 wIn4).last_base_ml_min = none
      ∧ (fuelCycle (fuelCycle wSt1 wIn4) wIn5).fuel_used_total_ml
        = (fuelCycle wSt1 wIn4).fuel_used_total_ml := by
  have hmaf4 : parse_first_float wIn4.maf_str 0 ≤ 0 := by
    rw [show wIn4.maf_str = "0.0" from rfl, parse_zero_dot_eval]
  have hmaf5 : 0 < parse_first_float wIn5.maf_str 0 := by
    rw [show wIn5.maf_str = "2.0" from rfl, parse_two_eval]; norm_num
  have h1 := (C3_invalid_sample_clears_baseline wSt1 wIn4).1 hmaf4
  have h4 := (C3_invalid_sample_clears_baseline wSt1 wIn4).2.2.2 wIn5 h1.2.2.1 hmaf5 rfl
  exact ⟨h1.1, h1.2.2.1, h4.1⟩

/-- C4 as stated is false; this is the amended form: the base total is
monotonically non-decreasing over every run from the initial state, and
the corrected total is monotonically non-decreasing over every run whose
parsed trim percentages all stay at or above −100 (with a trim below
−100 the corrected flow goes negative and the corrected total can
decrease, see the counterexample); neither total is reset by a cycle. -/
theorem C4_amended_totals_monotone (t0 : ℚ) (ins : List CycleIn) (i : CycleIn) :
    (runFuel (initFuelState t0) ins).fuel_used_total_ml
        ≤ (runFuel (initFuelState t0) (ins ++ [i])).fuel_used_total_ml
      ∧ ((∀ j, j ∈ ins ++ [i] → GoodTrims j) →
          (runFuel (initFuelState t0) ins).real_fuel_used_total_ml
            ≤ (runFuel (initFuelState t0) (ins ++ [i])).real_fuel_used_total_ml) := by
  have hbinv : BaseInv (initFuelState t0) := by
    intro b hb
    exact Option.noConfusion (hb : (none : Option ℚ) = some b)
  have hrinv : RealInv (initFuelState t0) := by
    intro r hr
    exact Option.noConfusion (hr : (none : Option ℚ) = some r)
  rw [runFuel_append]
  constructor
  · exact (fuelCycle_base_mono _ i (runFuel_base_mono ins _ hbinv).2).1
  · intro hg
    have hreal := runFuel_real_mono ins (initFuelState t0) hrinv
      (fun j hj => hg j (List.mem_append_left _ hj))
    exact (fuelCycle_real_mono _ i hreal.2
      (hg i (List.mem_append_right _ (List.mem_singleton_self i)))).1

theorem C4_amended_totals_monotone_witness :
    (runFuel (initFuelState 0) [wIn1]).fuel_used_total_ml
        ≤ (runFuel (initFuelState 0) ([wIn1] ++ [wIn5])).fuel_used_total_ml
      ∧ (runFuel (initFuelState 0) [wIn1]).real_fuel_used_total_ml
        ≤ (runFuel (initFuelState 0) ([wIn1] ++ [wIn5])).real_fuel_used_total_ml := by
  have hg : ∀ j, j ∈ [wIn1] ++ [wIn5] → GoodTrims j := by
    intro j hj
    have hz : -100 ≤ parse_first_float "0.0" 0 := by rw [parse_zero_dot_eval]; norm_num
    rcases List.mem_append.mp hj with hj | hj <;>
      rw [List.mem_singleton.mp hj] <;> exact ⟨hz, hz⟩
  have h := C4_amended_totals_monotone 0 [wIn1] wIn5
  exact ⟨h.1, h.2 hg⟩

/-- First cycle of the C4 counterexample: long-term trim −300 %. -/
def cxTrimIn1 : CycleIn := ⟨1, "2.0", "0", "-300", false⟩

/-- Second cycle of the C4 counterexample, one second later. -/
def cxTrimIn2 : CycleIn := ⟨2, "2.0", "0", "-300", false⟩

theorem cycleRealFlow_cxTrim_eval : cycleRealFlow cxTrimIn1 = -160000/7301 := by
  unfold cycleRealFlow
  rw [show cxTrimIn1.maf_str = "2.0" from rfl, show cxTrimIn1.stft_str = "0" from rfl,
    show cxTrimIn1.ltft_str = "-300" from rfl, parse_two_eval, parse_zero_eval,
    parse_neg300_eval]
  unfold calculate_real_fuel_usage calculate_fuel_usage_maf AFR FUEL_DENSITY
  norm_num

/-- C4 as stated is refuted: with a long-term fuel trim of −300 % the
trim-corrected total strictly decreases on the second cycle. -/
theorem C4_counterexample :
    (runFuel (initFuelState 0) [cxTrimIn1, cxTrimIn2]).real_fuel_used_total_ml
      < (runFuel (initFuelState 0) [cxTrimIn1]).real_fuel_used_total_ml := by
  have hmaf : 0 < parse_first_float cxTrimIn1.maf_str 0 := by
    rw [show cxTrimIn1.maf_str = "2.0" from rfl, parse_two_eval]; norm_num
  have hmaf2 : 0 < parse_first_float cxTrimIn2.maf_str 0 := by
    rw [show cxTrimIn2.maf_str = "2.0" from rfl, parse_two_eval]; norm_num
  have hstep1 := fuelCycle_cold_step (initFuelState 0) cxTrimIn1 (Or.inl rfl) hmaf rfl
  have heq1 : runFuel (initFuelState 0) [cxTrimIn1] = fuelCycle (initFuelState 0) cxTrimIn1 := rfl
  have heq2 : runFuel (initFuelState 0) [cxTrimIn1, cxTrimIn2]
      = fuelCycle (fuelCycle (initFuelState 0) cxTrimIn1) cxTrimIn2 := rfl
  rw [heq1, heq2, hstep1]
  rw [fuelCycle_warm_step _ cxTrimIn2 (cycleBaseFlow cxTrimIn1) (cycleRealFlow cxTrimIn1)
    rfl rfl hmaf2 rfl
    (by show (0 : ℚ) < 2 - 1; norm_num)
    (by show (2 : ℚ) - 1 ≤ MAX_TRAPZ_DT_S; norm_num [MAX_TRAPZ_DT_S])]
  show (initFuelState 0).real_fuel_used_total_ml
      + 1/2 * (cycleRealFlow cxTrimIn1 + cycleRealFlow cxTrimIn2) * ((2 - 1) / 60)
    < (initFuelState 0).real_fuel_used_total_ml
  have hflow2 : cycleRealFlow cxTrimIn2 = -160000/7301 := cycleRealFlow_cxTrim_eval
  rw [cycleRealFlow_cxTrim_eval, hflow2]
  show (0 : ℚ) + 1/2 * (-160000/7301 + -160000/7301) * ((2 - 1) / 60) < 0
  norm_num

/-- C5: the base flow equals `(maf / AFR) / fuel_density * 60` with
`AFR = 14.7` and `fuel_density = 0.745`, and the corrected flow equals
`base_flow * (1 + ltft/100) * (1 + stft/100)`, for all inputs. -/
theorem C5_flow_formulas (maf stft ltft : ℚ) :
    calculate_fuel_usage_maf maf = maf / (147/10) / (745/1000) * 60
      ∧ calculate_real_fuel_usage maf stft ltft
        = calculate_fuel_usage_maf maf * (1 + ltft/100) * (1 + stft/100) := by
  constructor
  · rfl
  · show calculate_fuel_usage_maf maf * ((1 + ltft/100) * (1 + stft/100))
      = calculate_fuel_usage_maf maf * (1 + ltft/100) * (1 + stft/100)
    ring

theorem cycleBaseFlow_wIn1_eval : cycleBaseFlow wIn1 = 80000/7301 := by
  unfold cycleBaseFlow
  rw [show wIn1.maf_str = "2.0" from rfl, parse_two_eval]
  unfold calculate_fuel_usage_maf AFR FUEL_DENSITY
  norm_num

/-- C6 as stated is refuted: for the MAF sequence [2.0, 2.0] g/s one
second apart with both trims 0, the computed base flow is 80000/7301
≈ 10.96 ml/min — more than half a unit away from the claimed ≈ 9.88 —
and the single increment is 4000/21903 ≈ 0.1826 ml, more than 0.01 away
from the claimed ≈ 0.1647 ml. -/
theorem C6_counterexample :
    (fuelCycle (initFuelState 0) wIn1).fuel_usage_disp = Disp.val (80000/7301)
      ∧ 988/100 + 1/2 < (80000 : ℚ)/7301
      ∧ (runFuel (initFuelState 0) [wIn1, wIn5]).fuel_used_total_ml = 4000/21903
      ∧ 1647/10000 + 1/100 < (4000 : ℚ)/21903 := by
  have hmaf1 : 0 < parse_first_float wIn1.maf_str 0 := by
    rw [show wIn1.maf_str = "2.0" from rfl, parse_two_eval]; norm_num
  have hmaf5 : 0 < parse_first_float wIn5.maf_str 0 := by
    rw [show wIn5.maf_str = "2.0" from rfl, parse_two_eval]; norm_num
  have hstep1 := fuelCycle_cold_step (initFuelState 0) wIn1 (Or.inl rfl) hmaf1 rfl
  have h5eval : cycleBaseFlow wIn5 = 80000/7301 := cycleBaseFlow_wIn1_eval
  refine ⟨?_, by norm_num, ?_, by norm_num⟩
  · rw [hstep1]
    show Disp.val (cycleBaseFlow wIn1) = Disp.val (80000/7301)
    rw [cycleBaseFlow_wIn1_eval]
  · have heq2 : runFuel (initFuelState 0) [wIn1, wIn5]
        = fuelCycle (fuelCycle (initFuelState 0) wIn1) wIn5 := rfl
    rw [heq2, hstep1]
    rw [fuelCycle_warm_step _ wIn5 (cycleBaseFlow wIn1) (cycleRealFlow wIn1)
      rfl rfl hmaf5 rfl
      (by show (0 : ℚ) < 2 - 1; norm_num)
      (by show (2 : ℚ) - 1 ≤ MAX_TRAPZ_DT_S; norm_num [MAX_TRAPZ_DT_S])]
    show (initFuelState 0).fuel_used_total_ml
        + 1/2 * (cycleBaseFlow wIn1 + cycleBaseFlow wIn5) * ((2 - 1) / 60) = 4000/21903
    rw [cycleBaseFlow_wIn1_eval, h5eval]
    show (0 : ℚ) + 1/2 * (80000/7301 + 80000/7301) * ((2 - 1) / 60) = 4000/21903
    norm_num

/-- C6 amended: the scenario [2.0, 2.0] g/s one second apart with trims
0/0 yields a constant base flow of 80000/7301 ≈ 10.96 ml/min on both
cycles, and exactly one trapezoidal increment
`0.5 * (f + f) * (1/60) = 4000/21903 ≈ 0.1826 ml` is added. -/
theorem C6_amended_scenario :
    (fuelCycle (initFuelState 0) wIn1).fuel_usage_disp = Disp.val (80000/7301)
      ∧ (runFuel (initFuelState 0) [wIn1, wIn5]).fuel_usage_disp = Disp.val (80000/7301)
      ∧ (runFuel (initFuelState 0) [wIn1]).fuel_used_total_ml = 0
      ∧ (runFuel (initFuelState 0) [wIn1, wIn5]).fuel_used_total_ml
        = 1/2 * (80000/7301 + 80000/7301) * ((1 : ℚ)/60)
      ∧ (runFuel (initFuelState 0) [wIn1, wIn5]).fuel_used_total_ml = 4000/21903 := by
  have hmaf1 : 0 < parse_first_float wIn1.maf_str 0 := by
    rw [show wIn1.maf_str = "2.0" from rfl, parse_two_eval]; norm_num
  have hmaf5 : 0 < parse_first_float wIn5.maf_str 0 := by
    rw [show wIn5.maf_str = "2.0" from rfl, parse_two_eval]; norm_num
  have hstep1 := fuelCycle_cold_step (initFuelState 0) wIn1 (Or.inl rfl) hmaf1 rfl
  have h5eval : cycleBaseFlow wIn5 = 80000/7301 := cycleBaseFlow_wIn1_eval
  have heq2 : runFuel (initFuelState 0) [wIn1, wIn5]
      = fuelCycle (fuelCycle (initFuelState 0) wIn1) wIn5 := rfl
  have hwarm := fuelCycle_warm_step (fuelCycle (initFuelState 0) wIn1) wIn5
    (cycleBaseFlow wIn1) (cycleRealFlow wIn1)
    (by rw [hstep1]) (by rw [hstep1]) hmaf5 rfl
    (by rw [hstep1]; show (0 : ℚ) < 2 - 1; norm_num)
    (by rw [hstep1]; show (2 : ℚ) - 1 ≤ MAX_TRAPZ_DT_S; norm_num [MAX_TRAPZ_DT_S])
  have htot : (runFuel (initFuelState 0) [wIn1, wIn5]).fuel_used_total_ml = 4000/21903 := by
    rw [heq2, hstep1]
    rw [fuelCycle_warm_step _ wIn5 (cycleBaseFlow wIn1) (cycleRealFlow wIn1)
      rfl rfl hmaf5 rfl
      (by show (0 : ℚ) < 2 - 1; norm_num)
      (by show (2 : ℚ) - 1 ≤ MAX_TRAPZ_DT_S; norm_num [MAX_TRAPZ_DT_S])]
    show (initFuelState 0).fuel_used_total_ml
        + 1/2 * (cycleBaseFlow wIn1 + cycleBaseFlow wIn5) * ((2 - 1) / 60) = 4000/21903
    rw [cycleBaseFlow_wIn1_eval, h5eval]
    show (0 : ℚ) + 1/2 * (80000/7301 + 80000/7301) * ((2 - 1) / 60) = 4000/21903
    norm_num
  refine ⟨?_, ?_, ?_, ?_, htot⟩
  · rw [hstep1]
    show Disp.val (cycleBaseFlow wIn1) = Disp.val (80000/7301)
    rw [cycleBaseFlow_wIn1_eval]
  · rw [heq2, hwarm]
    show Disp.val (cycleBaseFlow wIn5) = Disp.val (80000/7301)
    rw [h5eval]
  · show (fuelCycle (initFuelState 0) wIn1).fuel_used_total_ml = 0
    rw [hstep1]
    rfl
  · rw [htot]
    norm_num

/-!  The tiered scheduler (claim C7). -/

/-- `commands_fast`, polled every cycle (names of the python-obd
commands). -/
def commands_fast : List String :=
  ["RPM", "SPEED", "THROTTLE_POS", "RELATIVE_THROTTLE_POS", "MAF", "ENGINE_LOAD",
   "ABSOLUTE_LOAD", "INTAKE_PRESSURE", "INTAKE_TEMP", "ACCELERATOR_POS_D",
   "SHORT_FUEL_TRIM_1", "LONG_FUEL_TRIM_1"]

/-- `commands_medium`, polled every 15th cycle. -/
def commands_medium : List String := ["O2_B1S2", "O2_B1S1"]

/-- `commands_slow`, polled every 30th cycle. -/
def commands_slow : List String := ["FUEL_LEVEL", "ELM_VOLTAGE", "COOLANT_TEMP"]

/-- `all_commands = commands_fast + commands_medium + commands_slow`. -/
def all_commands : List String := commands_fast ++ commands_medium ++ commands_slow

/-- The polling part of one iteration of `read_obd_loop`: increment
`sec_count`, query every fast command, the medium commands when
`sec_count % 15 == 0` and the slow commands when `sec_count % 30 == 0`;
returns the new counter and the commands queried this cycle, in query
order. -/
def schedCycle (sec_count : Nat) : Nat × List String :=
  let n := sec_count + 1
  (n, commands_fast
      ++ (if n % 15 = 0 then commands_medium else [])
      ++ (if n % 30 = 0 then commands_slow else []))

/-- The counter after `k` cycles, starting from `sec_count = 0`. -/
def secCountAfter : Nat → Nat
  | 0 => 0
  | k + 1 => (schedCycle (secCountAfter k)).1

/-- The commands queried on the `k`-th cycle, `k ≥ 1`. -/
def queriedOnCycle (k : Nat) : List String :=
  (schedCycle (secCountAfter (k - 1))).2

theorem secCountAfter_eq (k : Nat) : secCountAfter k = k := by
  induction k with
  | zero => rfl
  | succ n ih =>
    show (schedCycle (secCountAfter n)).1 = n + 1
    rw [ih]
    rfl

/-- C7: the tick counter starts at 1 and increments once per cycle; on
tick `k` every fast command is queried, a medium command is queried
exactly when `k % 15 = 0`, and a slow command exactly when `k % 30 = 0`
— a pure function of the counter. -/
theorem C7_tier_schedule (k : Nat) (hk : 1 ≤ k) :
    secCountAfter k = k
      ∧ (∀ c ∈ commands_fast, c ∈ queriedOnCycle k)
      ∧ (∀ c ∈ commands_medium, (c ∈ queriedOnCycle k ↔ k % 15 = 0))
      ∧ (∀ c ∈ commands_slow, (c ∈ queriedOnCycle k ↔ k % 30 = 0)) := by
  have hq : queriedOnCycle k
      = commands_fast ++ (if k % 15 = 0 then commands_medium else [])
        ++ (if k % 30 = 0 then commands_slow else []) := by
    unfold queriedOnCycle schedCycle
    rw [secCountAfter_eq, Nat.sub_add_cancel hk]
  refine ⟨secCountAfter_eq k, ?_, ?_, ?_⟩
  · intro c hc
    rw [hq]
    exact List.mem_append_left _ (List.mem_append_left _ hc)
  · intro c hc
    have hc' : c = "O2_B1S2" ∨ c = "O2_B1S1" := by simpa [commands_medium] using hc
    constructor
    · intro hmem
      by_contra h15
      have h30 : ¬ k % 30 = 0 := fun h => h15 (by omega)
      rw [hq, if_neg h15, if_neg h30] at hmem
      rcases hc' with rfl | rfl <;> revert hmem <;> decide
    · intro h15
      rw [hq, if_pos h15]
      exact List.mem_append_left _ (List.mem_append_right _ hc)
  · intro c hc
    have hc' : c = "FUEL_LEVEL" ∨ c = "ELM_VOLTAGE" ∨ c = "COOLANT_TEMP" := by
      simpa [commands_slow] using hc
    constructor
    · intro hmem
      by_contra h30
      rw [hq, if_neg h30] at hmem
      by_cases h15 : k % 15 = 0
      · rw [if_pos h15] at hmem
        rcases hc' with rfl | rfl | rfl <;> revert hmem <;> decide
      · rw [if_neg h15] at hmem
        rcases hc' with rfl | rfl | rfl <;> revert hmem <;> decide
    · intro h30
      rw [hq, if_pos h30]
      exact List.mem_append_right _ hc

theorem C7_tier_schedule_witness :
    secCountAfter 30 = 30
      ∧ "MAF" ∈ queriedOnCycle 30
      ∧ "O2_B1S1" ∈ queriedOnCycle 30
      ∧ "COOLANT_TEMP" ∈ queriedOnCycle 30
      ∧ ¬ "O2_B1S1" ∈ queriedOnCycle 16
      ∧ ¬ "COOLANT_TEMP" ∈ queriedOnCycle 15 := by
  have h30 := C7_tier_schedule 30 (by norm_num)
  have h16 := C7_tier_schedule 16 (by norm_num)
  have h15 := C7_tier_schedule 15 (by norm_num)
  refine ⟨h30.1, h30.2.1 "MAF" (by decide), ?_, ?_, ?_, ?_⟩
  · exact (h30.2.2.1 "O2_B1S1" (by decide)).mpr (by norm_num)
  · exact (h30.2.2.2 "COOLANT_TEMP" (by decide)).mpr (by norm_num)
  · intro hmem
    have := (h16.2.2.1 "O2_B1S1" (by decide)).mp hmem
    omega
  · intro hmem
    have := (h15.2.2.2 "COOLANT_TEMP" (by decide)).mp hmem
    omega

/-!  The CSV logging sink (claim C8). -/

/-- `live_data[k]`: look up a key in the store snapshot, modelled as an
association list in insertion order (Python dicts preserve it), first
match wins.  Keys are never removed in the source, so the empty-string
default is never reached for a frozen key. -/
def lookupStore (live : List (String × String)) (k : String) : String :=
  match live.find? (fun p => p.1 == k) with
  | some p => p.2
  | none => ""

/-- The CSV-related process state: `csv_header_written`,
`csv_field_order`, and the contents of the log file as a list of rows
(each row a list of cells). -/
structure CsvState where
  header_written : Bool
  field_order : List String
  rows : List (List String)
deriving DecidableEq

/-- State at process start: no header written, empty field order, empty
file. -/
def initCsvState : CsvState := ⟨false, [], []⟩

/-- The CSV section of one iteration of `read_obd_loop`: on the first
write, freeze `csv_field_order := list(live_data.keys())`, write the
header `["timestamp"] + csv_field_order + ["GEAR"]` and then the row;
on every later write append one row
`[timestamp] + [live_data[k] for k in csv_field_order] + [gear]`. -/
def csv_write (st : CsvState) (ts : String) (live : List (String × String))
    (gear : String) : CsvState :=
  if st.header_written then
    { st with
        rows := st.rows ++ [[ts] ++ st.field_order.map (lookupStore live) ++ [gear]] }
  else
    { header_written := true
      field_order := live.map Prod.fst
      rows := st.rows
        ++ [["timestamp"] ++ live.map Prod.fst ++ ["GEAR"],
            [ts] ++ (live.map Prod.fst).map (lookupStore live) ++ [gear]] }

/-- Iterate `csv_write` over a list of per-cycle write requests. -/
def csvRun (st : CsvState) : List (String × List (String × String) × String) → CsvState
  | [] => st
  | (ts, live, gear) :: rest => csvRun (csv_write st ts live gear) rest

theorem lookupStore_append_new (live : List (String × String)) (k v j : String)
    (hkj : j ≠ k) :
    lookupStore (live ++ [(k, v)]) j = lookupStore live j := by
  unfold lookupStore
  rw [List.find?_append]
  cases h : List.find? (fun p => p.1 == j) live with
  | some p => rfl
  | none =>
    have hkj' : List.find? (fun p => p.1 == j) [(k, v)] = none := by
      rw [List.find?_cons_of_neg, List.find?_nil]
      simp only [beq_iff_eq]
      exact fun hkk => hkj hkk.symm
    rw [hkj']
    rfl

/-- Once the header is written, a run of writes never changes the frozen
field order, and every appended row has exactly
`field_order.length + 2` cells. -/
theorem csvRun_frozen (ws : List (String × List (String × String) × String)) :
    ∀ st : CsvState, st.header_written = true →
    (csvRun st ws).header_written = true
      ∧ (csvRun st ws).field_order = st.field_order
      ∧ ∃ new, (csvRun st ws).rows = st.rows ++ new
          ∧ ∀ r ∈ new, r.length = st.field_order.length + 2 := by
  induction ws with
  | nil =>
    intro st h
    exact ⟨h, rfl, [], (List.append_nil st.rows).symm, fun r hr => absurd hr (List.not_mem_nil r)⟩
  | cons w rest ih =>
    intro st h
    obtain ⟨ts, live, gear⟩ := w
    have hw : csv_write st ts live gear
        = { st with
              rows := st.rows ++ [[ts] ++ st.field_order.map (lookupStore live) ++ [gear]] } := by
      unfold csv_write
      rw [if_pos h]
    have hrow : ([ts] ++ st.field_order.map (lookupStore live) ++ [gear]).length
        = st.field_order.length + 2 := by
      simp [List.length_append, List.length_map]
    obtain ⟨ih1, ih2, new', hnew', hlen'⟩ := ih (csv_write st ts live gear)
      (by rw [hw]; exact h)
    refine ⟨ih1, ?_, ([ts] ++ st.field_order.map (lookupStore live) ++ [gear]) :: new', ?_, ?_⟩
    · show (csvRun (csv_write st ts live gear) rest).field_order = st.field_order
      rw [ih2, hw]
    · show (csvRun (csv_write st ts live gear) rest).rows = _
      rw [hnew', hw]
      simp [List.append_assoc]
    · intro r hr
      rcases List.mem_cons.mp hr with rfl | hr
      · exact hrow
      · have := hlen' r hr
        rw [hw] at this
        exact this

/-- C8: the column set and order is frozen at the first row a process
writes (timestamp, the store keys in snapshot order, gear); afterwards
the frozen order never changes, every appended row is
`timestamp :: values of exactly the frozen keys :: gear` (hence the same
column count and order for the whole run), and a key added to the store
after the freeze does not alter the written output at all. -/
theorem C8_frozen_header (st : CsvState) (ts : String)
    (live : List (String × String)) (gear : String) :
    (st.header_written = false →
        (csv_write st ts live gear).header_written = true
          ∧ (csv_write st ts live gear).field_order = live.map Prod.fst
          ∧ (csv_write st ts live gear).rows
            = st.rows
              ++ [["timestamp"] ++ live.map Prod.fst ++ ["GEAR"],
                  [ts] ++ (live.map Prod.fst).map (lookupStore live) ++ [gear]])
    ∧ (st.header_written = true →
        (csv_write st ts live gear).field_order = st.field_order
          ∧ (csv_write st ts live gear).rows
            = st.rows ++ [[ts] ++ st.field_order.map (lookupStore live) ++ [gear]])
    ∧ (st.header_written = true → ∀ k v, k ∉ st.field_order →
        csv_write st ts (live ++ [(k, v)]) gear = csv_write st ts live gear)
    ∧ (st.header_written = true →
        ∀ ws, (csvRun st ws).field_order = st.field_order
          ∧ ∃ new, (csvRun st ws).rows = st.rows ++ new
              ∧ ∀ r ∈ new, r.length = st.field_order.length + 2) := by
  refine ⟨?_, ?_, ?_, ?_⟩
  · intro h
    unfold csv_write
    rw [if_neg (by rw [h]; exact Bool.false_ne_true)]
    exact ⟨rfl, rfl, rfl⟩
  · intro h
    unfold csv_write
    rw [if_pos h]
    exact ⟨rfl, rfl⟩
  · intro h k v hk
    unfold csv_write
    rw [if_pos h, if_pos h]
    have hmap : st.field_order.map (lookupStore (live ++ [(k, v)]))
        = st.field_order.map (lookupStore live) := by
      refine List.map_congr_left ?_
      intro j hj
      exact lookupStore_append_new live k v j (fun hjk => hk (hjk ▸ hj))
    rw [hmap]
  · intro h ws
    obtain ⟨_, h2, h3⟩ := csvRun_frozen ws st h
    exact ⟨h2, h3⟩

theorem C8_frozen_header_witness :
    (csv_write (csv_write initCsvState "t0" [("RPM", "700"), ("MAF", "2.0")] "N")
        "t1" [("RPM", "800"), ("MAF", "2.5"), ("NEWKEY", "x")] "N").rows
      = [["timestamp", "RPM", "MAF", "GEAR"],
         ["t0", "700", "2.0", "N"],
         ["t1", "800", "2.5", "N"]] := by
  have h1 := (C8_frozen_header initCsvState "t0" [("RPM", "700"), ("MAF", "2.0")] "N").1 rfl
  have hst1 : csv_write initCsvState "t0" [("RPM", "700"), ("MAF", "2.0")] "N"
      = { header_written := true
          field_order := ["RPM", "MAF"]
          rows := [["timestamp", "RPM", "MAF", "GEAR"], ["t0", "700", "2.0", "N"]] } := by
    unfold csv_write
    rw [if_neg (by exact Bool.false_ne_true)]
    rfl
  have hdrop := (C8_frozen_header
      { header_written := true
        field_order := ["RPM", "MAF"]
        rows := [["timestamp", "RPM", "MAF", "GEAR"], ["t0", "700", "2.0", "N"]] }
      "t1" [("RPM", "800"), ("MAF", "2.5")] "N").2.2.1 rfl "NEWKEY" "x" (by decide)
  have h2 := (C8_frozen_header
      { header_written := true
        field_order := ["RPM", "MAF"]
        rows := [["timestamp", "RPM", "MAF", "GEAR"], ["t0", "700", "2.0", "N"]] }
      "t1" [("RPM", "800"), ("MAF", "2.5")] "N").2.1 rfl
  rw [hst1]
  rw [show [("RPM", "800"), ("MAF", "2.5"), ("NEWKEY", "x")]
      = [("RPM", "800"), ("MAF", "2.5")] ++ [("NEWKEY", "x")] from rfl, hdrop]
  rw [h2.2]
  rfl

/-!  The staleness watchdog (claim C9). -/

/-- One iteration of `watchdog_loop`: parse the stored MAF string; a
positive value refreshes `last_fast_seen` to the current time; a restart
is triggered exactly when `now - last_fast_seen > 5`.  The source calls
`time.time()` up to three times per iteration; the sub-second skew
between those calls is collapsed into the single `now`. -/
def watchdogCycle (last_fast_seen now : ℚ) (maf_str : String) : ℚ × Bool :=
  let maf_val := parse_first_float maf_str 0
  let ls := if 0 < maf_val then now else last_fast_seen
  (ls, decide (5 < now - ls))

/-- Run the watchdog over a list of `(time, MAF string)` cycles,
stopping at the first triggered restart (the source re-execs the whole
process there). -/
def watchdogRun (ls : ℚ) : List (ℚ × String) → ℚ × Bool
  | [] => (ls, false)
  | (t, m) :: rest =>
    if (watchdogCycle ls t m).2 then ((watchdogCycle ls t m).1, true)
    else watchdogRun (watchdogCycle ls t m).1 rest

/-- The liveness signal is refreshed within every threshold-length
window: at each cycle the elapsed time since the most recent positive
signal (counting this cycle's own, if positive) is at most 5 seconds. -/
def NoStaleRun (ls : ℚ) : List (ℚ × String) → Prop
  | [] => True
  | (t, m) :: rest =>
    (t - (if 0 < parse_first_float m 0 then t else ls) ≤ 5)
      ∧ NoStaleRun (if 0 < parse_first_float m 0 then t else ls) rest

theorem watchdogRun_cons (ls t : ℚ) (m : String) (rest : List (ℚ × String)) :
    watchdogRun ls ((t, m) :: rest)
      = if (watchdogCycle ls t m).2 = true then ((watchdogCycle ls t m).1, true)
        else watchdogRun (watchdogCycle ls t m).1 rest := rfl

theorem watchdogRun_no_stale (ins : List (ℚ × String)) : ∀ ls : ℚ,
    NoStaleRun ls ins → (watchdogRun ls ins).2 = false := by
  induction ins with
  | nil => exact fun ls _ => rfl
  | cons p rest ih =>
    obtain ⟨t, m⟩ := p
    intro ls h
    obtain ⟨h1, h2⟩ := h
    have hc2 : (watchdogCycle ls t m).2 = false := by
      show decide (5 < t - (if 0 < parse_first_float m 0 then t else ls)) = false
      exact decide_eq_false (not_lt.mpr h1)
    rw [watchdogRun_cons, hc2, if_neg Bool.false_ne_true]
    exact ih _ h2

theorem watchdogRun_ls_stale (ins : List (ℚ × String)) : ∀ T : ℚ,
    (∀ p ∈ ins, ¬ 0 < parse_first_float p.2 0) → (watchdogRun T ins).1 = T := by
  induction ins with
  | nil => exact fun T _ => rfl
  | cons p rest ih =>
    obtain ⟨t, m⟩ := p
    intro T hneg
    have hm : ¬ 0 < parse_first_float m 0 := hneg (t, m) (List.mem_cons_self _ _)
    have hls : (watchdogCycle T t m).1 = T := by
      show (if 0 < parse_first_float m 0 then t else T) = T
      rw [if_neg hm]
    by_cases hc2 : (watchdogCycle T t m).2 = true
    · rw [watchdogRun_cons, if_pos hc2]
      exact hls
    · rw [watchdogRun_cons, if_neg hc2, hls]
      exact ih T (fun q hq => hneg q (List.mem_cons_of_mem _ hq))

theorem watchdogRun_stale (ins : List (ℚ × String)) : ∀ T : ℚ,
    (∀ p ∈ ins, ¬ 0 < parse_first_float p.2 0) →
    ((watchdogRun T ins).2 = true ↔ ∃ p ∈ ins, 5 < p.1 - T) := by
  induction ins with
  | nil =>
    intro T _
    simp [watchdogRun]
  | cons p rest ih =>
    obtain ⟨t, m⟩ := p
    intro T hneg
    have hm : ¬ 0 < parse_first_float m 0 := hneg (t, m) (List.mem_cons_self _ _)
    have hls : (watchdogCycle T t m).1 = T := by
      show (if 0 < parse_first_float m 0 then t else T) = T
      rw [if_neg hm]
    by_cases h5 : 5 < t - T
    · have hc2 : (watchdogCycle T t m).2 = true := by
        show decide (5 < t - (if 0 < parse_first_float m 0 then t else T)) = true
        rw [if_neg hm]
        exact decide_eq_true h5
      rw [watchdogRun_cons, hc2, if_pos rfl]
      constructor
      · exact fun _ => ⟨(t, m), List.mem_cons_self _ _, h5⟩
      · exact fun _ => rfl
    · have hc2 : (watchdogCycle T t m).2 = false := by
        show decide (5 < t - (if 0 < parse_first_float m 0 then t else T)) = false
        rw [if_neg hm]
        exact decide_eq_false h5
      rw [watchdogRun_cons, hc2, if_neg Bool.false_ne_true, hls,
        ih T (fun q hq => hneg q (List.mem_cons_of_mem _ hq))]
      constructor
      · rintro ⟨q, hq, hq5⟩
        exact ⟨q, List.mem_cons_of_mem _ hq, hq5⟩
      · rintro ⟨q, hq, hq5⟩
        rcases List.mem_cons.mp hq with rfl | hq
        · exact absurd hq5 h5
        · exact ⟨q, hq, hq5⟩

/-- C9: a positive MAF signal refreshes `last_fast_seen` to the current
time and a non-positive one leaves it unchanged; a restart is triggered
on a cycle exactly when the time elapsed since the last positive signal
exceeds 5 seconds — never while it is at most 5 — so a run whose signal
is refreshed within every 5-second window never restarts, and once the
signal stops being positive after a last refresh at time `T`, a restart
occurs exactly on reaching a cycle later than `T + 5`, and not before. -/
theorem C9_watchdog_staleness :
    (∀ (ls now : ℚ) (m : String),
        (0 < parse_first_float m 0 → (watchdogCycle ls now m).1 = now)
          ∧ (¬ 0 < parse_first_float m 0 → (watchdogCycle ls now m).1 = ls)
          ∧ ((watchdogCycle ls now m).2 = true ↔ 5 < now - (watchdogCycle ls now m).1)
          ∧ (now - (watchdogCycle ls now m).1 ≤ 5 → (watchdogCycle ls now m).2 = false))
    ∧ (∀ (ls : ℚ) (ins : List (ℚ × String)),
        NoStaleRun ls ins → (watchdogRun ls ins).2 = false)
    ∧ (∀ (T : ℚ) (ins : List (ℚ × String)),
        (∀ p ∈ ins, ¬ 0 < parse_first_float p.2 0) →
        (watchdogRun T ins).1 = T
          ∧ ((watchdogRun T ins).2 = true ↔ ∃ p ∈ ins, 5 < p.1 - T)) := by
  refine ⟨?_, fun ls ins h => watchdogRun_no_stale ins ls h, ?_⟩
  · intro ls now m
    refine ⟨?_, ?_, ?_, ?_⟩
    · intro h
      show (if 0 < parse_first_float m 0 then now else ls) = now
      rw [if_pos h]
    · intro h
      show (if 0 < parse_first_float m 0 then now else ls) = ls
      rw [if_neg h]
    · show decide (5 < now - (if 0 < parse_first_float m 0 then now else ls)) = true
        ↔ 5 < now - (if 0 < parse_first_float m 0 then now else ls)
      rw [decide_eq_true_eq]
    · intro h
      show decide (5 < now - (if 0 < parse_first_float m 0 then now else ls)) = false
      exact decide_eq_false (not_lt.mpr h)
  · exact fun T ins hneg => ⟨watchdogRun_ls_stale ins T hneg, watchdogRun_stale ins T hneg⟩

theorem C9_watchdog_staleness_witness :
    (watchdogRun 0 [(1, "2.0"), (6, "0")]).2 = false
      ∧ (watchdogRun 0 [(1, "0"), (6, "0")]).2 = true := by
  constructor
  · apply C9_watchdog_staleness.2.1 0 [(1, "2.0"), (6, "0")]
    refine ⟨?_, ?_, trivial⟩
    · norm_num [parse_two_eval]
    · norm_num [parse_two_eval, parse_zero_eval]
  · refine (C9_watchdog_staleness.2.2 0 [(1, "0"), (6, "0")] ?_).2.mpr
      ⟨(6, "0"), ?_, ?_⟩
    · intro p hp
      rcases List.mem_cons.mp hp with rfl | hp
      · show ¬ 0 < parse_first_float "0" 0
        rw [parse_zero_eval]
        norm_num
      · rw [List.mem_singleton.mp hp]
        show ¬ 0 < parse_first_float "0" 0
        rw [parse_zero_eval]
        norm_num
    · exact List.mem_cons_of_mem _ (List.mem_singleton_self _)
    · show (5 : ℚ) < 6 - 0
      norm_num

/-!  Claim C10: characterisation of `parse_first_float`.  The language
of the regex `[-+]?\d*\.?\d+` is described independently by `numLit`
(an exact-match predicate on a candidate substring), and `rxSearch` is
proven to return a leftmost-starting member of that language, or `none`
exactly when no substring belongs to it. -/

/-- Exact membership of a string in the language of the regex body
`\d*\.?\d+`: leading digits followed by either nothing (at least one
digit in total) or a dot and a nonempty run of digits reaching the end. -/
def numBody (m : List Char) : Bool :=
  match m.dropWhile isDigitCh with
  | [] => decide (m.takeWhile isDigitCh ≠ [])
  | c :: fs => decide (c = '.') && decide (fs ≠ []) && fs.all isDigitCh

/-- Exact membership in the language of `[-+]?\d*\.?\d+`. -/
def numLit (m : List Char) : Bool :=
  match m with
  | c :: r => if c = '+' ∨ c = '-' then numBody r else numBody m
  | [] => false

/-!  Small takeWhile/dropWhile toolbox. -/

theorem dropWhile_head_false (p : Char → Bool) :
    ∀ (l : List Char) (c : Char) (r : List Char),
    l.dropWhile p = c :: r → p c = false := by
  intro l
  induction l with
  | nil =>
    intro c r h
    exact absurd h (by simp [List.dropWhile])
  | cons a t ih =>
    intro c r h
    by_cases hp : p a = true
    · rw [List.dropWhile_cons_of_pos hp] at h
      exact ih c r h
    · rw [List.dropWhile_cons_of_neg hp] at h
      injection h with h1 _
      rw [← h1]
      exact Bool.eq_false_iff.mpr hp

theorem takeWhile_append_not (p : Char → Bool) (c : Char) (hc : p c = false) :
    ∀ (ds t : List Char), ds.all p = true → (ds ++ c :: t).takeWhile p = ds := by
  intro ds
  induction ds with
  | nil =>
    intro t _
    show (c :: t).takeWhile p = []
    rw [List.takeWhile_cons_of_neg (by rw [hc]; exact Bool.false_ne_true)]
  | cons a r ih =>
    intro t hall
    obtain ⟨ha, hr⟩ := Bool.and_eq_true_iff.mp (List.all_cons ▸ hall)
    show ((a :: r) ++ c :: t).takeWhile p = a :: r
    rw [List.cons_append, List.takeWhile_cons_of_pos ha, ih t hr]

theorem dropWhile_append_not (p : Char → Bool) (c : Char) (hc : p c = false) :
    ∀ (ds t : List Char), ds.all p = true → (ds ++ c :: t).dropWhile p = c :: t := by
  intro ds
  induction ds with
  | nil =>
    intro t _
    show (c :: t).dropWhile p = c :: t
    rw [List.dropWhile_cons_of_neg (by rw [hc]; exact Bool.false_ne_true)]
  | cons a r ih =>
    intro t hall
    obtain ⟨ha, hr⟩ := Bool.and_eq_true_iff.mp (List.all_cons ▸ hall)
    show ((a :: r) ++ c :: t).dropWhile p = c :: t
    rw [List.cons_append, List.dropWhile_cons_of_pos ha, ih t hr]

theorem takeWhile_of_all (p : Char → Bool) (ds : List Char) (h : ds.all p = true) :
    ds.takeWhile p = ds :=
  List.takeWhile_eq_self_iff.mpr (fun x hx => List.all_eq_true.mp h x hx)

theorem dropWhile_of_all (p : Char → Bool) (ds : List Char) (h : ds.all p = true) :
    ds.dropWhile p = [] :=
  List.dropWhile_eq_nil_iff.mpr (fun x hx => List.all_eq_true.mp h x hx)

/-!  Branch equations for `matchBody` and `numBody`. -/

theorem matchBody_eq_nil (l : List Char) (h : l.dropWhile isDigitCh = []) :
    matchBody l
      = if l.takeWhile isDigitCh = [] then none else some (l.takeWhile isDigitCh) := by
  unfold matchBody
  rw [h]

theorem matchBody_eq_cons (l : List Char) (c : Char) (rest : List Char)
    (h : l.dropWhile isDigitCh = c :: rest) :
    matchBody l
      = if c = '.' then
          if rest.takeWhile isDigitCh = [] then
            (if l.takeWhile isDigitCh = [] then none else some (l.takeWhile isDigitCh))
          else some (l.takeWhile isDigitCh ++ '.' :: rest.takeWhile isDigitCh)
        else if l.takeWhile isDigitCh = [] then none else some (l.takeWhile isDigitCh) := by
  unfold matchBody
  rw [h]

theorem numBody_eq_nil (m : List Char) (h : m.dropWhile isDigitCh = []) :
    numBody m = decide (m.takeWhile isDigitCh ≠ []) := by
  unfold numBody
  rw [h]

theorem numBody_eq_cons (m : List Char) (c : Char) (fs : List Char)
    (h : m.dropWhile isDigitCh = c :: fs) :
    numBody m = (decide (c = '.') && decide (fs ≠ []) && fs.all isDigitCh) := by
  unfold numBody
  rw [h]

theorem numBody_digits (ds : List Char) (hall : ds.all isDigitCh = true)
    (hne : ds ≠ []) : numBody ds = true := by
  rw [numBody_eq_nil ds (dropWhile_of_all _ _ hall)]
  exact decide_eq_true (by rw [takeWhile_of_all _ _ hall]; exact hne)

theorem isDigitCh_dot : isDigitCh '.' = false := rfl

/-- Soundness of the anchored body match: the result is a member of the
body language and a prefix of the input. -/
theorem matchBody_sound (l m : List Char) (h : matchBody l = some m) :
    numBody m = true ∧ ∃ post, l = m ++ post := by
  have hsplit : l.takeWhile isDigitCh ++ l.dropWhile isDigitCh = l :=
    List.takeWhile_append_dropWhile isDigitCh l
  have hall : (l.takeWhile isDigitCh).all isDigitCh = true := List.all_takeWhile
  cases hdw : l.dropWhile isDigitCh with
  | nil =>
    rw [matchBody_eq_nil l hdw] at h
    by_cases hds : l.takeWhile isDigitCh = []
    · rw [if_pos hds] at h
      exact Option.noConfusion h
    · rw [if_neg hds] at h
      have hm : m = l.takeWhile isDigitCh := (Option.some.inj h).symm
      subst hm
      refine ⟨numBody_digits _ hall hds, l.dropWhile isDigitCh, hsplit.symm⟩
  | cons c rest =>
    rw [matchBody_eq_cons l c rest hdw] at h
    by_cases hcdot : c = '.'
    · rw [if_pos hcdot] at h
      by_cases hfs : rest.takeWhile isDigitCh = []
      · rw [if_pos hfs] at h
        by_cases hds : l.takeWhile isDigitCh = []
        · rw [if_pos hds] at h
          exact Option.noConfusion h
        · rw [if_neg hds] at h
          have hm : m = l.takeWhile isDigitCh := (Option.some.inj h).symm
          subst hm
          refine ⟨numBody_digits _ hall hds, l.dropWhile isDigitCh, hsplit.symm⟩
      · rw [if_neg hfs] at h
        have hm : m = l.takeWhile isDigitCh ++ '.' :: rest.takeWhile isDigitCh :=
          (Option.some.inj h).symm
        subst hm
        have hfall : (rest.takeWhile isDigitCh).all isDigitCh = true := List.all_takeWhile
        constructor
        · rw [numBody_eq_cons _ '.' (rest.takeWhile isDigitCh)
            (dropWhile_append_not _ '.' isDigitCh_dot _ _ hall)]
          rw [Bool.and_eq_true, Bool.and_eq_true]
          exact ⟨⟨decide_eq_true rfl, decide_eq_true hfs⟩, hfall⟩
        · refine ⟨rest.dropWhile isDigitCh, ?_⟩
          have hrest : rest.takeWhile isDigitCh ++ rest.dropWhile isDigitCh = rest :=
            List.takeWhile_append_dropWhile isDigitCh rest
          calc l = l.takeWhile isDigitCh ++ (c :: rest) := by rw [← hdw, hsplit]
            _ = l.takeWhile isDigitCh
                ++ '.' :: (rest.takeWhile isDigitCh ++ rest.dropWhile isDigitCh) := by
                  rw [hcdot, hrest]
            _ = (l.takeWhile isDigitCh ++ '.' :: rest.takeWhile isDigitCh)
                ++ rest.dropWhile isDigitCh := by simp [List.append_assoc]
    · rw [if_neg hcdot] at h
      by_cases hds : l.takeWhile isDigitCh = []
      · rw [if_pos hds] at h
        exact Option.noConfusion h
      · rw [if_neg hds] at h
        have hm : m = l.takeWhile isDigitCh := (Option.some.inj h).symm
        subst hm
        refine ⟨numBody_digits _ hall hds, l.dropWhile isDigitCh, hsplit.symm⟩

theorem takeWhile_ne_nil_head (p : Char → Bool) (a : Char) (r : List Char)
    (h : (a :: r).takeWhile p ≠ []) : p a = true := by
  by_contra hp
  exact h (List.takeWhile_cons_of_neg hp)

theorem matchBody_isSome_digit (l : List Char) (hds : l.takeWhile isDigitCh ≠ []) :
    (matchBody l).isSome = true := by
  cases hdw : l.dropWhile isDigitCh with
  | nil =>
    rw [matchBody_eq_nil l hdw, if_neg hds]
    rfl
  | cons c rest =>
    rw [matchBody_eq_cons l c rest hdw]
    by_cases hcdot : c = '.'
    · rw [if_pos hcdot]
      by_cases hfs : rest.takeWhile isDigitCh = []
      · rw [if_pos hfs, if_neg hds]
        rfl
      · rw [if_neg hfs]
        rfl
    · rw [if_neg hcdot, if_neg hds]
      rfl

/-- Completeness of the anchored body match: if some prefix of the input
belongs to the body language, the greedy match succeeds. -/
theorem matchBody_complete (m post : List Char) (hm : numBody m = true) :
    (matchBody (m ++ post)).isSome = true := by
  cases hdw : m.dropWhile isDigitCh with
  | nil =>
    rw [numBody_eq_nil m hdw] at hm
    have hne : m.takeWhile isDigitCh ≠ [] := of_decide_eq_true hm
    apply matchBody_isSome_digit
    cases m with
    | nil => exact absurd rfl hne
    | cons a r =>
      have ha : isDigitCh a = true := takeWhile_ne_nil_head _ a r hne
      rw [List.cons_append, List.takeWhile_cons_of_pos ha]
      exact List.cons_ne_nil _ _
  | cons c fs =>
    rw [numBody_eq_cons m c fs hdw, Bool.and_eq_true, Bool.and_eq_true] at hm
    obtain ⟨⟨hc, hfs⟩, hfall⟩ := hm
    have hcdot : c = '.' := of_decide_eq_true hc
    have hfsne : fs ≠ [] := of_decide_eq_true hfs
    by_cases hds : m.takeWhile isDigitCh = []
    · have hm_eq : m = c :: fs := by
        conv_lhs => rw [← List.takeWhile_append_dropWhile isDigitCh m]
        rw [hds, hdw, List.nil_append]
      have hcdig : isDigitCh c = false := by rw [hcdot]; exact isDigitCh_dot
      have h2 : (m ++ post).dropWhile isDigitCh = c :: (fs ++ post) := by
        rw [hm_eq, List.cons_append]
        exact List.dropWhile_cons_of_neg (by rw [hcdig]; exact Bool.false_ne_true)
      rw [matchBody_eq_cons _ c (fs ++ post) h2, if_pos hcdot]
      have hfs2 : (fs ++ post).takeWhile isDigitCh ≠ [] := by
        cases fs with
        | nil => exact absurd rfl hfsne
        | cons b fr =>
          have hb : isDigitCh b = true :=
            List.all_eq_true.mp hfall b (List.mem_cons_self _ _)
          rw [List.cons_append, List.takeWhile_cons_of_pos hb]
          exact List.cons_ne_nil _ _
      rw [if_neg hfs2]
      rfl
    · apply matchBody_isSome_digit
      cases m with
      | nil => exact absurd rfl hds
      | cons a r =>
        have ha : isDigitCh a = true := takeWhile_ne_nil_head _ a r hds
        rw [List.cons_append, List.takeWhile_cons_of_pos ha]
        exact List.cons_ne_nil _ _

theorem numBody_ne_nil (m : List Char) (h : numBody m = true) : m ≠ [] := by
  intro hm
  subst hm
  rw [numBody_eq_nil [] rfl] at h
  exact of_decide_eq_true h rfl

theorem matchNumAt_cons (c : Char) (r : List Char) :
    matchNumAt (c :: r)
      = if c = '+' then (matchBody r).map (fun m => '+' :: m)
        else if c = '-' then (matchBody r).map (fun m => '-' :: m)
        else matchBody (c :: r) := rfl

theorem numLit_cons (c : Char) (r : List Char) :
    numLit (c :: r) = if c = '+' ∨ c = '-' then numBody r else numBody (c :: r) := rfl

/-- Soundness of the anchored match with optional sign. -/
theorem matchNumAt_sound (l m : List Char) (h : matchNumAt l = some m) :
    numLit m = true ∧ ∃ post, l = m ++ post := by
  cases l with
  | nil => exact Option.noConfusion h
  | cons c r =>
    rw [matchNumAt_cons] at h
    by_cases hplus : c = '+'
    · rw [if_pos hplus] at h
      cases hb : matchBody r with
      | none =>
        rw [hb] at h
        exact Option.noConfusion h
      | some m' =>
        rw [hb] at h
        have hm : m = '+' :: m' := (Option.some.inj h).symm
        obtain ⟨hnb, post, hpost⟩ := matchBody_sound r m' hb
        subst hm
        refine ⟨?_, post, ?_⟩
        · rw [numLit_cons, if_pos (Or.inl rfl)]
          exact hnb
        · rw [hplus, hpost, List.cons_append]
    · rw [if_neg hplus] at h
      by_cases hminus : c = '-'
      · rw [if_pos hminus] at h
        cases hb : matchBody r with
        | none =>
          rw [hb] at h
          exact Option.noConfusion h
        | some m' =>
          rw [hb] at h
          have hm : m = '-' :: m' := (Option.some.inj h).symm
          obtain ⟨hnb, post, hpost⟩ := matchBody_sound r m' hb
          subst hm
          refine ⟨?_, post, ?_⟩
          · rw [numLit_cons, if_pos (Or.inr rfl)]
            exact hnb
          · rw [hminus, hpost, List.cons_append]
      · rw [if_neg hminus] at h
        obtain ⟨hnb, post, hpost⟩ := matchBody_sound (c :: r) m h
        refine ⟨?_, post, hpost⟩
        cases m with
        | nil => exact absurd rfl (numBody_ne_nil [] hnb)
        | cons a r' =>
          rw [List.cons_append] at hpost
          injection hpost with h1 _
          rw [numLit_cons, if_neg ?hsign]
          · exact hnb
          case hsign =>
            rw [← h1]
            exact fun hor => hor.elim hplus hminus

/-- Completeness of the anchored match with optional sign. -/
theorem matchNumAt_complete (m post : List Char) (hm : numLit m = true) :
    (matchNumAt (m ++ post)).isSome = true := by
  cases m with
  | nil => exact Bool.noConfusion hm
  | cons c r =>
    rw [numLit_cons] at hm
    by_cases hsign : c = '+' ∨ c = '-'
    · rw [if_pos hsign] at hm
      rw [List.cons_append, matchNumAt_cons]
      have hs := matchBody_complete r post hm
      rcases hsign with h1 | h1
      · rw [if_pos h1]
        cases hb : matchBody (r ++ post) with
        | none =>
          rw [hb] at hs
          exact Bool.noConfusion hs
        | some m' => rfl
      · have hne : ¬ c = '+' := by
          rw [h1]
          decide
        rw [if_neg hne, if_pos h1]
        cases hb : matchBody (r ++ post) with
        | none =>
          rw [hb] at hs
          exact Bool.noConfusion hs
        | some m' => rfl
    · rw [if_neg hsign] at hm
      rw [List.cons_append, matchNumAt_cons]
      have hplus : ¬ c = '+' := fun h => hsign (Or.inl h)
      have hminus : ¬ c = '-' := fun h => hsign (Or.inr h)
      rw [if_neg hplus, if_neg hminus, ← List.cons_append]
      exact matchBody_complete (c :: r) post hm

theorem rxSearch_cons (c : Char) (cs : List Char) :
    rxSearch (c :: cs)
      = (match matchNumAt (c :: cs) with
          | some m => some m
          | none => rxSearch cs) := rfl

/-- If the search fails, no substring of the input belongs to the regex
language. -/
theorem rxSearch_none (l : List Char) : rxSearch l = none →
    ∀ pre m post, l = pre ++ m ++ post → numLit m = false := by
  induction l with
  | nil =>
    intro _ pre m post heq
    have hm : m = [] := by
      rcases List.append_eq_nil.mp heq.symm with ⟨h1, h2⟩
      exact (List.append_eq_nil.mp h1).2
    rw [hm]
    rfl
  | cons c cs ih =>
    intro h pre m post heq
    cases hq : numLit m with
    | false => rfl
    | true =>
      exfalso
      cases hma : matchNumAt (c :: cs) with
      | some m0 =>
        rw [rxSearch_cons, hma] at h
        exact Option.noConfusion h
      | none =>
        have htail : rxSearch cs = none := by
          rw [rxSearch_cons, hma] at h
          exact h
        cases pre with
        | nil =>
          rw [List.nil_append] at heq
          have hc := matchNumAt_complete m post hq
          rw [← heq, hma] at hc
          exact Bool.noConfusion hc
        | cons p ps =>
          rw [List.cons_append, List.cons_append] at heq
          injection heq with _ h2
          have := ih htail ps m post h2
          rw [hq] at this
          exact Bool.noConfusion this

/-- If the search succeeds, the result is a member of the regex language
occurring in the input at the leftmost position at which any member
occurs. -/
theorem rxSearch_sound (l : List Char) : ∀ m, rxSearch l = some m →
    ∃ pre post, l = pre ++ m ++ post ∧ numLit m = true
      ∧ ∀ pre' m' post', l = pre' ++ m' ++ post' → numLit m' = true →
          pre.length ≤ pre'.length := by
  induction l with
  | nil => exact fun m h => Option.noConfusion h
  | cons c cs ih =>
    intro m h
    cases hma : matchNumAt (c :: cs) with
    | some m0 =>
      have hm : m0 = m := by
        rw [rxSearch_cons, hma] at h
        exact Option.some.inj h
      subst hm
      obtain ⟨hlit, post, hpost⟩ := matchNumAt_sound (c :: cs) m0 hma
      refine ⟨[], post, by rw [List.nil_append]; exact hpost, hlit, ?_⟩
      intro pre' m' post' _ _
      exact Nat.zero_le _
    | none =>
      have htail : rxSearch cs = some m := by
        rw [rxSearch_cons, hma] at h
        exact h
      obtain ⟨pre, post, heq, hlit, hmin⟩ := ih m htail
      refine ⟨c :: pre, post, ?_, hlit, ?_⟩
      · rw [List.cons_append, List.cons_append, ← heq]
      · intro pre' m' post' heq' hlit'
        cases pre' with
        | nil =>
          exfalso
          rw [List.nil_append] at heq'
          have hc := matchNumAt_complete m' post' hlit'
          rw [← heq', hma] at hc
          exact Bool.noConfusion hc
        | cons p ps =>
          rw [List.cons_append, List.cons_append] at heq'
          injection heq' with _ h2
          have := hmin ps m' post' h2 hlit'
          show pre.length + 1 ≤ ps.length + 1
          omega

theorem parse_first_float_special (s : String) (d : ℚ)
    (h : (s = "" ∨ s = "No data") ∨ s = "...") : parse_first_float s d = d := by
  unfold parse_first_float
  have hb : (decide (s = "") || decide (s = "No data") || decide (s = "...")) = true := by
    simp only [Bool.or_eq_true, decide_eq_true_eq]
    exact h
  rw [if_pos hb]

theorem parse_first_float_search (s : String) (d : ℚ)
    (h : ¬((s = "" ∨ s = "No data") ∨ s = "...")) :
    parse_first_float s d
      = (match rxSearch s.data with
          | some m => floatVal m
          | none => d) := by
  unfold parse_first_float
  have hb : ¬((decide (s = "") || decide (s = "No data") || decide (s = "...")) = true) := by
    simp only [Bool.or_eq_true, decide_eq_true_eq]
    exact h
  rw [if_neg hb]

/-- C10: `parse_first_float` is total and returns the default for the
guard strings "", "No data" and "..." and whenever the input contains no
substring in the language of `[-+]?\d*\.?\d+`; otherwise it returns the
`float` value of a matching substring starting at the leftmost position
at which any match starts — in particular digits embedded in arbitrary
text, including failure markers such as "error: ...", are parsed as the
numeric reading. -/
theorem C10_parse_first_float_spec (s : String) (d : ℚ) :
    (((s = "" ∨ s = "No data") ∨ s = "...") → parse_first_float s d = d)
    ∧ ((∀ pre m post, s.data = pre ++ m ++ post → numLit m = false) →
        parse_first_float s d = d)
    ∧ (¬((s = "" ∨ s = "No data") ∨ s = "...") →
        (∃ pre m post, s.data = pre ++ m ++ post ∧ numLit m = true) →
        ∃ pre m post, s.data = pre ++ m ++ post ∧ numLit m = true
          ∧ (∀ pre' m' post', s.data = pre' ++ m' ++ post' → numLit m' = true →
              pre.length ≤ pre'.length)
          ∧ parse_first_float s d = floatVal m) := by
  refine ⟨fun h => parse_first_float_special s d h, ?_, ?_⟩
  · intro hno
    by_cases hs : (s = "" ∨ s = "No data") ∨ s = "..."
    · exact parse_first_float_special s d hs
    · rw [parse_first_float_search s d hs]
      cases hr : rxSearch s.data with
      | none => rfl
      | some m =>
        exfalso
        obtain ⟨pre, post, heq, hlit, _⟩ := rxSearch_sound s.data m hr
        rw [hno pre m post heq] at hlit
        exact Bool.noConfusion hlit
  · intro hs hex
    cases hr : rxSearch s.data with
    | none =>
      exfalso
      obtain ⟨pre, m, post, heq, hlit⟩ := hex
      rw [rxSearch_none s.data hr pre m post heq] at hlit
      exact Bool.noConfusion hlit
    | some m =>
      obtain ⟨pre, post, heq, hlit, hmin⟩ := rxSearch_sound s.data m hr
      refine ⟨pre, m, post, heq, hlit, hmin, ?_⟩
      rw [parse_first_float_search s d hs, hr]

theorem C10_parse_first_float_spec_witness :
    (∃ pre m post,
        ("error: timeout after 2s").data = pre ++ m ++ post ∧ numLit m = true
          ∧ (∀ pre' m' post',
              ("error: timeout after 2s").data = pre' ++ m' ++ post' →
              numLit m' = true → pre.length ≤ pre'.length)
          ∧ parse_first_float "error: timeout after 2s" 0 = floatVal m)
      ∧ parse_first_float "No data" 7 = 7 := by
  constructor
  · exact (C10_parse_first_float_spec "error: timeout after 2s" 0).2.2
      (by decide)
      ⟨['e','r','r','o','r',':',' ','t','i','m','e','o','u','t',' ','a','f','t','e','r',' '],
       ['2'], ['s'], rfl, rfl⟩
  · exact (C10_parse_first_float_spec "No data" 7).1 (Or.inl (Or.inr rfl))
